import Mathlib

/-!
# Shogun: quadratic-time MMD and the MKL training driver

A shallow embedding of

* `src/shogun/statistics/QuadraticTimeMMD.cpp`
* `src/shogun/statistics/KernelTwoSampleTestStatistic.cpp`
* `src/libshogun/classifier/svm/MKL.cpp`

Conventions of the embedding:

* `index_t` / `int32_t` values are `Int`.  The products `m*(m-1)`, `n*(n-1)` and
  `m*n` of `compute_statistic`, which leave the 32 bit range for sample sizes the
  constructor accepts, are reduced to 32 bit by `wrap32` (the two's complement
  result; C++ leaves signed overflow undefined).  The other integer expressions
  are exact: the index expressions stay inside the 32 bit range once the checks
  in front of them have passed, and `mkl_iterations` is counted without
  overflow.
* `float64_t` values are `ℚ`: the arithmetic of the code is followed exactly,
  operation by operation, but without rounding.  Division by zero follows the
  field convention `x / 0 = 0`.
* `SG_ERROR` and a failing `ASSERT` raise an exception.  A method of
  `CQuadraticTimeMMD` that can raise returns `Except String _`; a method of
  `CMKL`, which changes the object before it raises, returns an `Outcome` that
  holds the state of the object at that moment.
* Loops whose number of rounds the code does not bound (`while (!converged())`,
  `while (env==NULL)`) run on a bound given to the model and end in
  `Outcome.running` when the bound is reached.
* Library and base-class functions that the three files call and do not define
  are parameters of the model.
* `for (index_t i = lo; i < hi; ++i) body` is `forLoop lo hi body`.
-/

namespace Shogun

/-- The value a 32 bit signed integer holds after an operation whose exact result
is `x`: `x` reduced modulo 2^32 into the range from -2^31 to 2^31 - 1. -/
def wrap32 (x : Int) : Int := (x + 2147483648) % 4294967296 - 2147483648

/-- Runs `body i` for `i = start, start + 1, ...`, `count` times. -/
def loopFrom {σ : Type} (body : Int → σ → σ) : Nat → Int → σ → σ
  | 0, _, s => s
  | k + 1, i, s => loopFrom body k (i + 1) (body i s)

/-- The loop `for (index_t i = lo; i < hi; ++i) body`: it runs `hi - lo` times
when `lo < hi` and not at all otherwise. -/
def forLoop {σ : Type} (lo hi : Int) (body : Int → σ → σ) (init : σ) : σ :=
  loopFrom body (hi - lo).toNat lo init

/-! ## Vectors and matrices -/

/-- The type `SGVector<float64_t>`: the entries, `vlen` being their number. -/
abbrev SGVector := List ℚ

/-- The member `vlen` of an `SGVector`. -/
def SGVector.vlen (v : SGVector) : Int := (v.length : Int)

/-- The constructor `SGVector<float64_t>(len)`; the entries, which C++ leaves
uninitialised, are `0`. -/
def SGVector.alloc (len : Int) : SGVector := List.replicate len.toNat 0

/-- A read `v[i]`.  C++ does not check the index; the embedding reports an index
outside `[0, vlen)` as an error. -/
def SGVector.read (v : SGVector) (i : Int) : Except String ℚ :=
  if 0 ≤ i ∧ i < SGVector.vlen v then .ok (v.getD i.toNat 0)
  else .error "index out of bounds"

/-- A write `v[i] = x`, with the same check as `SGVector.read`. -/
def SGVector.write (v : SGVector) (i : Int) (x : ℚ) : Except String SGVector :=
  if 0 ≤ i ∧ i < SGVector.vlen v then .ok (v.set i.toNat x)
  else .error "index out of bounds"

/-- The type `SGMatrix<float64_t>`, as the function from a position `(i, j)` to
the entry `K(i, j)`. -/
abbrev SGMatrix := Int → Int → ℚ

/-- An assignment `K(i, j) = x`. -/
def SGMatrix.assign (K : SGMatrix) (i j : Int) (x : ℚ) : SGMatrix :=
  fun a b => if a = i ∧ b = j then x else K a b

/-! ## `CQuadraticTimeMMD` -/

/-- The members of `CQuadraticTimeMMD` (with those of its base classes) that the
code reads.  `m_kernel i j` is `m_kernel->kernel(i,j)` after
`m_kernel->init(m_p_and_q, m_p_and_q)`; `m_num_vectors` is
`m_p_and_q->get_num_vectors()`. -/
structure CQuadraticTimeMMD where
  m_kernel : Int → Int → ℚ
  m_num_vectors : Int
  m_q_start : Int
  m_num_samples_spectrum : Int
  m_num_eigenvalues_spectrum : Int

namespace CQuadraticTimeMMD

/-- The method `CQuadraticTimeMMD::init`. -/
def init (self : CQuadraticTimeMMD) : CQuadraticTimeMMD :=
  { self with m_num_samples_spectrum := 0, m_num_eigenvalues_spectrum := 0 }

/-- The constructor `CQuadraticTimeMMD(kernel, p_and_q, q_start)`; `num_vectors`
is `p_and_q->get_num_vectors()`.  The division is the truncating division of
C++. -/
def create (kernel : Int → Int → ℚ) (num_vectors q_start : Int) :
    Except String CQuadraticTimeMMD :=
  let self := init
    { m_kernel := kernel, m_num_vectors := num_vectors, m_q_start := q_start,
      m_num_samples_spectrum := 0, m_num_eigenvalues_spectrum := 0 }
  if q_start ≠ Int.tdiv num_vectors 2 then
    .error "CQuadraticTimeMMD: Only features with equal number of vectors are currently possible"
  else
    .ok self

/-- The value of `first` in `compute_statistic` when the third term starts. -/
def compute_statistic_first (self : CQuadraticTimeMMD) : ℚ :=
  let m := self.m_q_start
  let first : ℚ := 0
  let first := forLoop 0 m (fun i first =>
    forLoop 0 m (fun j first =>
      if i = j then first else first + self.m_kernel i j) first) first
  first / ((wrap32 (m * wrap32 (m - 1)) : Int) : ℚ)

/-- The value of `second` in `compute_statistic` when the third term starts. -/
def compute_statistic_second (self : CQuadraticTimeMMD) : ℚ :=
  let n := self.m_num_vectors
  let second : ℚ := 0
  let second := forLoop self.m_q_start n (fun i second =>
    forLoop self.m_q_start n (fun j second =>
      if i = j then second else second + self.m_kernel i j) second) second
  second / ((wrap32 (n * wrap32 (n - 1)) : Int) : ℚ)

/-- The value of `third` in `compute_statistic` at the `return`. -/
def compute_statistic_third (self : CQuadraticTimeMMD) : ℚ :=
  let m := self.m_q_start
  let n := self.m_num_vectors
  let third : ℚ := 0
  let third := forLoop 0 m (fun i third =>
    forLoop self.m_q_start n (fun j third => third + self.m_kernel i j) third) third
  third * (-2 / ((wrap32 (m * n) : Int) : ℚ))

/-- The method `CQuadraticTimeMMD::compute_statistic`. -/
def compute_statistic (self : CQuadraticTimeMMD) : ℚ :=
  compute_statistic_first self + compute_statistic_second self - compute_statistic_third self

/-- The method `CQuadraticTimeMMD::sample_null_spectrum` (compiled under
`HAVE_LAPACK`).  `eigenvalues` is the vector that
`SGMatrix<float64_t>::compute_eigenvectors` returns for the centred kernel
matrix; centring and the eigen-solver belong to LAPACK and the matrix class,
which are not part of the sources. -/
def sample_null_spectrum (self : CQuadraticTimeMMD) (eigenvalues : SGVector)
    (num_samples num_eigenvalues : Int) : Except String SGVector :=
  if self.m_q_start ≠ Int.tdiv self.m_num_vectors 2 then
    .error "sample_null_spectrum(): Currently, only equal sample sizes are supported"
  else if num_samples ≤ 2 then
    .error "sample_null_spectrum(): Number of samples has to be at least 2, better in the hundrets"
  else if num_eigenvalues > 2 * self.m_q_start - 1 then
    .error "sample_null_spectrum(): Number of Eigenvalues too large"
  else if num_eigenvalues < 1 then
    .error "sample_null_spectrum(): Number of Eigenvalues too small"
  else
    let largest_ev : Except String SGVector :=
      forLoop 0 num_eigenvalues (fun i (largest_ev : Except String SGVector) =>
        largest_ev.bind fun largest_ev =>
        (SGVector.read eigenvalues (SGVector.vlen eigenvalues - 1 - i)).bind fun ev =>
        SGVector.write largest_ev i |1 / 2 / (self.m_q_start : ℚ) * ev|)
        (.ok (SGVector.alloc num_eigenvalues))
    largest_ev.bind fun largest_ev =>
    forLoop 0 num_samples (fun i (null_samples : Except String SGVector) =>
      null_samples.bind fun null_samples =>
      (SGVector.write null_samples i 0).bind fun null_samples =>
      (forLoop 0 (SGVector.vlen largest_ev) (fun j (null_samples : Except String SGVector) =>
        null_samples.bind fun null_samples =>
        (SGVector.read null_samples i).bind fun cur =>
        (SGVector.read largest_ev j).bind fun ev =>
        SGVector.write null_samples i (cur + ev * (2 : ℚ) ^ 2))
        (.ok null_samples)).bind fun null_samples =>
      (SGVector.read null_samples i).bind fun cur =>
      SGVector.write null_samples i (cur * 2))
      (.ok (SGVector.alloc num_samples))

/-- The first loop of `compute_p_value_gamma`: the sum of the entries
`K(i, m_q_start+i)` and the matrix with the four block diagonals set to `0`. -/
def compute_p_value_gamma_mean_loop (m_q_start : Int) (K : SGMatrix) :
    ℚ × SGMatrix :=
  forLoop 0 m_q_start (fun i st =>
    let mean_mmd := st.1 + st.2 i (m_q_start + i)
    let K := st.2
    let K := SGMatrix.assign K i i 0
    let K := SGMatrix.assign K (m_q_start + i) (m_q_start + i) 0
    let K := SGMatrix.assign K i (m_q_start + i) 0
    let K := SGMatrix.assign K (m_q_start + i) i 0
    (mean_mmd, K)) (0, K)

/-- The second loop of `compute_p_value_gamma`, on the matrix the first loop
left behind. -/
def compute_p_value_gamma_var_loop (m_q_start : Int) (K : SGMatrix) : ℚ :=
  forLoop 0 m_q_start (fun i var_mmd =>
    forLoop 0 m_q_start (fun j var_mmd =>
      let to_add : ℚ := 0
      let to_add := to_add + K i j
      let to_add := to_add + K (m_q_start + i) (m_q_start + j)
      let to_add := to_add - K i (m_q_start + j)
      let to_add := to_add - K (m_q_start + i) j
      var_mmd + to_add ^ 2) var_mmd) 0

/-- The method `CQuadraticTimeMMD::compute_p_value_gamma`.  `gamma_cdf` is
`CStatistics::gamma_cdf`, which is not part of the sources. -/
def compute_p_value_gamma (gamma_cdf : ℚ → ℚ → ℚ → ℚ)
    (self : CQuadraticTimeMMD) (statistic : ℚ) : Except String ℚ :=
  let m_q_start := self.m_q_start
  if m_q_start ≠ Int.tdiv self.m_num_vectors 2 then
    .error "compute_threshold_gamma(): Currently, only equal sample sizes are supported"
  else
    let K : SGMatrix := self.m_kernel
    let st := compute_p_value_gamma_mean_loop m_q_start K
    let mean_mmd := st.1
    let K := st.2
    let mean_mmd := 2 / (m_q_start : ℚ) * (1 - 1 / (m_q_start : ℚ) * mean_mmd)
    let var_mmd := compute_p_value_gamma_var_loop m_q_start K
    let var_mmd := var_mmd *
      (2 / (m_q_start : ℚ) / ((m_q_start - 1 : Int) : ℚ) * 1
        / (m_q_start : ℚ) / ((m_q_start - 1 : Int) : ℚ))
    let a := mean_mmd ^ 2 / var_mmd
    let b := var_mmd * (m_q_start : ℚ) / mean_mmd
    .ok (gamma_cdf statistic a b)

end CQuadraticTimeMMD

/-! ## `CMKL` -/

/-- How a call ended.  An exception (`SG_ERROR`, a failing `ASSERT`) leaves the
object in the state it had when the exception was raised; `running` is a call
that has not come back within the number of steps the model was given. -/
inductive Outcome (σ α : Type) where
  | returned (state : σ) (value : α)
  | raised (state : σ) (message : String)
  | running (state : σ)

namespace Outcome

/-- The state of the object when the call ended (or was last observed). -/
def state {σ α : Type} : Outcome σ α → σ
  | returned s _ => s
  | raised s _ => s
  | running s => s

/-- Whether the call raised an exception. -/
def failed {σ α : Type} : Outcome σ α → Bool
  | raised _ _ => true
  | _ => false

/-- Whether the call came back with a value. -/
def hasReturned {σ α : Type} : Outcome σ α → Bool
  | returned _ _ => true
  | _ => false

/-- Sequencing: the rest of the function body runs only after a normal return. -/
def andThen {σ α β : Type} (o : Outcome σ α) (k : σ → α → Outcome σ β) : Outcome σ β :=
  match o with
  | returned s a => k s a
  | raised s msg => raised s msg
  | running s => running s

end Outcome

/-- The solver types that `MKL.cpp` names; `ST_OTHER` stands for every other
enumerator of the type. -/
inductive ESolverType where
  | ST_AUTO
  | ST_CPLEX
  | ST_GLPK
  | ST_OTHER
  deriving DecidableEq, Repr

/-- What `CMKL::train` asks of the label object: `get_num_labels()` and
`is_two_class_labeling()`. -/
structure CLabels where
  num_labels : Int
  two_class : Bool
  deriving DecidableEq, Repr

/-- A non-null pointer to a backend object. -/
abbrev Handle := Nat

/-- The preprocessor switches under which `MKL.cpp` is compiled. -/
structure BuildConfig where
  USE_CPLEX : Bool
  USE_GLPK : Bool
  deriving DecidableEq, Repr

/-- The members of `CMKL` that `MKL.cpp` names.  `S` is the state of the
sub-solver `svm`, `W` everything else the object holds (kernel weights, gap,
and so on); `callback` says whether the sub-solver holds a callback into this
object; `bias`, `alpha` and `support_vectors` are the model of the `CSVM` base
class.  A null pointer is `none`. -/
structure CMKL (S W : Type) where
  svm : S
  labels : Option CLabels
  C_mkl : ℚ
  mkl_norm : ℚ
  mkl_iterations : Int
  epsilon : ℚ
  interleaved_optimization : Bool
  solver_type : ESolverType
  lp_cplex : Option Handle
  env : Option Handle
  lp_glpk : Option Handle
  lp_initialized : Bool
  callback : Bool
  bias : ℚ
  alpha : List ℚ
  support_vectors : List Int
  rest : W

/-- The sub-solver interface of `CSVM` that `CMKL::train` calls. -/
structure CSVM (S : Type) where
  train : S → S
  get_num_support_vectors : S → Int
  get_bias : S → ℚ
  get_alpha : S → Int → ℚ
  get_support_vector : S → Int → Int

/-- The functions `MKL.cpp` calls and does not define: the sub-solver, and the
members `converged` and `perform_mkl_step` of `CMKL` itself. -/
structure Collaborators (S W : Type) where
  svm : CSVM S
  converged : CMKL S W → Bool
  perform_mkl_step : CMKL S W → CMKL S W

/-- The answers of the LP libraries during one call: the status codes of
`CPXfreeprob`, `CPXcloseCPLEX` and of the two `CPXsetintparam` calls, the
results of the successive `CPXopenCPLEX` attempts, the result of
`CPXcreateprob`, and the result of `lpx_create_prob`. -/
structure Backend where
  freeprob : Int
  closeCPLEX : Int
  openCPLEX : List (Option Handle)
  setintparam_lpmethod : Int
  setintparam_datacheck : Int
  createprob : Option Handle
  lpx_create_prob : Option Handle

/-- What `CMKL::train` did to its collaborators, in order. -/
inductive Event where
  | svm_train
  | mkl_step
  deriving DecidableEq, Repr

/-- The object together with the record of the collaborator calls made so far. -/
structure TrainState (S W : Type) where
  mkl : CMKL S W
  trace : List Event

namespace CMKL

variable {S W : Type}

/-- The loop `while (env==NULL)` of `init_cplex`; `opens` are the results the
coming `CPXopenCPLEX` attempts will have.  When they are used up and the
environment is still closed the call is still retrying. -/
def init_cplex_loop (b : Backend) : List (Option Handle) → CMKL S W → Outcome (CMKL S W) Unit
  | [], self => if self.env = none then .running self else .returned self ()
  | r :: opens, self =>
    if self.env = none then
      let self := { self with env := r }
      if self.env = none then
        init_cplex_loop b opens self
      else if b.setintparam_lpmethod ≠ 0 then
        .raised self "Failure to select dual lp optimization"
      else if b.setintparam_datacheck ≠ 0 then
        .raised self "Failure to turn on data checking"
      else
        let self := { self with lp_cplex := b.createprob }
        if self.lp_cplex = none then
          .raised self "Failed to create LP."
        else
          init_cplex_loop b opens self
    else .returned self ()

/-- The method `CMKL::init_cplex` (compiled under `USE_CPLEX`). -/
def init_cplex (b : Backend) (self : CMKL S W) : Outcome (CMKL S W) Bool :=
  (init_cplex_loop b b.openCPLEX self).andThen fun self _ =>
    .returned self (self.lp_cplex.isSome && self.env.isSome)

/-- The method `CMKL::cleanup_cplex` (compiled under `USE_CPLEX`). -/
def cleanup_cplex (b : Backend) (self : CMKL S W) : CMKL S W × Bool :=
  let result := false
  let st : CMKL S W × Bool :=
    if self.lp_cplex.isSome then
      let status := b.freeprob
      let self := { self with lp_cplex := none, lp_initialized := false }
      if status ≠ 0 then (self, result) else (self, true)
    else (self, result)
  let self := st.1
  let result := st.2
  let st : CMKL S W × Bool :=
    if self.env.isSome then
      let status := b.closeCPLEX
      let self := { self with env := none }
      if status ≠ 0 then (self, result) else (self, true)
    else (self, result)
  st

/-- The method `CMKL::init_glpk` (compiled under `USE_GLPK`). -/
def init_glpk (b : Backend) (self : CMKL S W) : CMKL S W × Bool :=
  let self := { self with lp_glpk := b.lpx_create_prob }
  (self, self.lp_glpk.isSome)

/-- The method `CMKL::cleanup_glpk` (compiled under `USE_GLPK`). -/
def cleanup_glpk (self : CMKL S W) : CMKL S W × Bool :=
  let self := { self with lp_initialized := false }
  let self := { self with lp_glpk := none }
  (self, true)

/-- The method `CMKL::init_solver`. -/
def init_solver (cfg : BuildConfig) (b : Backend) (self : CMKL S W) :
    Outcome (CMKL S W) Unit :=
  let cplex : Outcome (CMKL S W) Unit :=
    if cfg.USE_CPLEX then
      let self := (cleanup_cplex b self).1
      if self.solver_type = .ST_CPLEX ∨ self.solver_type = .ST_AUTO then
        (init_cplex b self).andThen fun self _ => .returned self ()
      else .returned self ()
    else .returned self ()
  cplex.andThen fun self _ =>
    if cfg.USE_GLPK then
      let self := (cleanup_glpk self).1
      if self.solver_type = .ST_GLPK ∨ (self.mkl_norm = 1 ∧ self.solver_type = .ST_AUTO) then
        .returned (init_glpk b self).1 ()
      else .returned self ()
    else .returned self ()

/-- The two assertions that open `CMKL::train`. -/
def labels_ok (self : CMKL S W) : Bool :=
  match self.labels with
  | none => false
  | some labels => labels.num_labels ≠ 0 && labels.two_class

/-- The statement `if (epsilon<=0) epsilon=1e-2;` of `CMKL::train`. -/
def clamp_epsilon (self : CMKL S W) : CMKL S W :=
  if self.epsilon ≤ 0 then { self with epsilon := 1 / 100 } else self

/-- The loop `while (!converged())` of `CMKL::train`, run for at most `fuel`
rounds. -/
def train_loop (c : Collaborators S W) : Nat → TrainState S W → Outcome (TrainState S W) Unit
  | 0, st => if c.converged st.mkl then .returned st () else .running st
  | fuel + 1, st =>
    if c.converged st.mkl then .returned st ()
    else
      let self := st.mkl
      let self := { self with svm := c.svm.train self.svm }
      let trace := st.trace ++ [Event.svm_train]
      let self := c.perform_mkl_step self
      let trace := trace ++ [Event.mkl_step]
      let self := { self with mkl_iterations := self.mkl_iterations + 1 }
      train_loop c fuel { mkl := self, trace := trace }

/-- Modelled from the spec: `set_callback_function()` is declared in `MKL.h`,
which is not part of the sources; the specification says of interleaved mode
that the sub-solver "accepts a weight-update callback", so the call hands the
callback to the sub-solver and does nothing else. -/
def set_callback_function (self : CMKL S W) : CMKL S W :=
  { self with callback := true }

/-- Modelled from the spec: `create_new_model`, `set_bias`, `set_alpha` and
`set_support_vector` belong to the `CSVM` base class, which is not part of the
sources; the specification has them hold "a trained model snapshot (bias, alpha
per support vector, support-vector indices)".  `create_new_model(num)` makes
room for `num` support vectors. -/
def create_new_model (self : CMKL S W) (num : Int) : CMKL S W :=
  { self with bias := 0, alpha := List.replicate num.toNat 0,
              support_vectors := List.replicate num.toNat 0 }

/-- Modelled from the spec: see `create_new_model`. -/
def set_bias (self : CMKL S W) (bias : ℚ) : CMKL S W :=
  { self with bias := bias }

/-- Modelled from the spec: see `create_new_model`. -/
def set_alpha (self : CMKL S W) (idx : Int) (val : ℚ) : CMKL S W :=
  if 0 ≤ idx then { self with alpha := self.alpha.set idx.toNat val } else self

/-- Modelled from the spec: see `create_new_model`. -/
def set_support_vector (self : CMKL S W) (idx : Int) (val : Int) : CMKL S W :=
  if 0 ≤ idx then { self with support_vectors := self.support_vectors.set idx.toNat val }
  else self

/-- The end of `CMKL::train`, from `int32_t nsv=...` to `return true`. -/
def train_store_model (c : Collaborators S W) (self : CMKL S W) : CMKL S W :=
  let nsv := c.svm.get_num_support_vectors self.svm
  let self := create_new_model self nsv
  let self := set_bias self (c.svm.get_bias self.svm)
  forLoop 0 nsv (fun i self =>
    let self := set_alpha self i (c.svm.get_alpha self.svm i)
    set_support_vector self i (c.svm.get_support_vector self.svm i)) self

/-- The block `#ifdef USE_CPLEX cleanup_cplex(); if (...) init_cplex(); #endif`
of `CMKL::train`. -/
def train_cplex_block (cfg : BuildConfig) (b : Backend) (self : CMKL S W) :
    Outcome (CMKL S W) Unit :=
  if cfg.USE_CPLEX then
    let self := (cleanup_cplex b self).1
    if self.solver_type = .ST_CPLEX ∨ self.solver_type = .ST_AUTO then
      (init_cplex b self).andThen fun self _ => .returned self ()
    else .returned self ()
  else .returned self ()

/-- The part of `CMKL::train` from `mkl_iterations = 0` to the end of the
`if (interleaved_optimization) ... else ...`. -/
def train_optimize (c : Collaborators S W) (fuel : Nat) (self : CMKL S W) :
    Outcome (TrainState S W) Unit :=
  let self := { self with mkl_iterations := 0 }
  if self.interleaved_optimization then
    .returned { mkl := set_callback_function self, trace := [] } ()
  else
    train_loop c fuel { mkl := self, trace := [] }

/-- The part of `CMKL::train` after the optimisation: the second
`cleanup_cplex()` and the copy of the sub-solver's model. -/
def train_finish (cfg : BuildConfig) (c : Collaborators S W) (b : Backend)
    (st : TrainState S W) : TrainState S W :=
  let self := st.mkl
  let self := if cfg.USE_CPLEX then (cleanup_cplex b self).1 else self
  let self := train_store_model c self
  { mkl := self, trace := st.trace }

/-- The body of `CMKL::train` after the two assertions. -/
def train_checked (cfg : BuildConfig) (c : Collaborators S W) (b : Backend) (fuel : Nat)
    (self : CMKL S W) : Outcome (TrainState S W) Bool :=
  let self := clamp_epsilon self
  match train_cplex_block cfg b self with
  | .raised self msg => .raised { mkl := self, trace := [] } msg
  | .running self => .running { mkl := self, trace := [] }
  | .returned self _ =>
    (train_optimize c fuel self).andThen fun st _ =>
      .returned (train_finish cfg c b st) true

/-- The method `CMKL::train`.  `fuel` bounds the rounds of the training loop. -/
def train (cfg : BuildConfig) (c : Collaborators S W) (b : Backend) (fuel : Nat)
    (self : CMKL S W) : Outcome (TrainState S W) Bool :=
  match self.labels with
  | none =>
    .raised { mkl := self, trace := [] } "assertion labels && labels->get_num_labels() failed"
  | some labels =>
    if labels.num_labels = 0 then
      .raised { mkl := self, trace := [] } "assertion labels && labels->get_num_labels() failed"
    else if labels.two_class = false then
      .raised { mkl := self, trace := [] } "assertion labels->is_two_class_labeling() failed"
    else
      train_checked cfg c b fuel self

end CMKL

/-! ## The statistic as the specification writes it -/

/-- The sum of `K(i,j)` over the pairs `i ≠ j` with `lo ≤ i, j < hi`. -/
def offDiagonalSum (K : Int → Int → ℚ) (lo hi : Int) : ℚ :=
  ∑ i in Finset.Ico lo hi, ∑ j in Finset.Ico lo hi, if i = j then 0 else K i j

/-- The sum of `K(i,j)` over `0 ≤ i < m` and `m ≤ j < n`. -/
def crossSum (K : Int → Int → ℚ) (m n : Int) : ℚ :=
  ∑ i in Finset.Ico 0 m, ∑ j in Finset.Ico m n, K i j

/-- The specification's `term1 = (1/(m(m−1))) · Σ_{i≠j<m} K(i,j)`. -/
def spec_term1 (K : Int → Int → ℚ) (m : Int) : ℚ :=
  1 / ((m : ℚ) * ((m : ℚ) - 1)) * offDiagonalSum K 0 m

/-- The specification's `term2 = (1/((n−m)(n−m−1))) · Σ_{i≠j≥m} K(i,j)`. -/
def spec_term2 (K : Int → Int → ℚ) (m n : Int) : ℚ :=
  1 / (((n : ℚ) - m) * ((n : ℚ) - m - 1)) * offDiagonalSum K m n

/-- The specification's `term3 = (−2/(m(n−m))) · Σ_{i<m, j≥m} K(i,j)`. -/
def spec_term3 (K : Int → Int → ℚ) (m n : Int) : ℚ :=
  -2 / ((m : ℚ) * ((n : ℚ) - m)) * crossSum K m n

/-- The specification's `statistic = term1 + term2 − term3`. -/
def spec_statistic (K : Int → Int → ℚ) (m n : Int) : ℚ :=
  spec_term1 K m + spec_term2 K m n - spec_term3 K m n

/-- The kernel matrix after the two samples have changed places:
`K'(i,j) = K((i+m) mod n, (j+m) mod n)`. -/
def swapSamples (K : Int → Int → ℚ) (m n : Int) :
    Int → Int → ℚ :=
  fun i j => K ((i + m) % n) ((j + m) % n)

/-- The mean under H0 as the comment in `compute_p_value_gamma` writes it,
`2/m * (1 - 1/m*sum(diag(KL)))`, on the entries of the original matrix. -/
def spec_mean_mmd (K : SGMatrix) (m : Int) : ℚ :=
  2 / (m : ℚ) * (1 - 1 / (m : ℚ) * ∑ i in Finset.Ico 0 m, K i (m + i))

/-- The variance under H0,
`2/(m(m-1)) * 1/(m(m-1)) * Σ_{i≠j} (K(i,j) + K(m+i,m+j) - K(i,m+j) - K(m+i,j))^2`,
on the entries of the original matrix. -/
def spec_var_mmd (K : SGMatrix) (m : Int) : ℚ :=
  2 / ((m : ℚ) * ((m : ℚ) - 1)) * (1 / ((m : ℚ) * ((m : ℚ) - 1))) *
    ∑ i in Finset.Ico 0 m, ∑ j in Finset.Ico 0 m,
      if i = j then 0 else (K i j + K (m + i) (m + j) - K i (m + j) - K (m + i) j) ^ 2

/-- The positions `(k,k)`, `(m+k,m+k)`, `(k,m+k)` and `(m+k,k)` with `0 ≤ k < i`:
the diagonals of the four m×m blocks, down to row `i`. -/
def onBlockDiagonals (m i a b : Int) : Prop :=
  (0 ≤ a ∧ a < i ∧ (b = a ∨ b = m + a)) ∨ (m ≤ a ∧ a < m + i ∧ (b = a ∨ b = a - m))

instance (m i a b : Int) : Decidable (onBlockDiagonals m i a b) := by
  unfold onBlockDiagonals
  infer_instance

/-- The matrix `K` with the positions `onBlockDiagonals m i` set to `0`. -/
def zeroBlockDiagonals (K : SGMatrix) (m i : Int) : SGMatrix :=
  fun a b => if onBlockDiagonals m i a b then 0 else K a b

/-! ## Kernel matrices and training set-ups used as test inputs -/

/-- A sub-solver whose state counts the trainings done: after `s` trainings it
has `s` support vectors, bias `s`, `alpha(i) = s + i` and
`support_vector(i) = 10 i`. -/
def countingSVM : CSVM Nat :=
  { train := fun s => s + 1
    get_num_support_vectors := fun s => (s : Int)
    get_bias := fun s => (s : ℚ)
    get_alpha := fun s i => (s : ℚ) + (i : ℚ)
    get_support_vector := fun _ i => 10 * i }

/-- Collaborators for `countingSVM`: `rest` counts the MKL steps, and the
training has converged after three of them. -/
def countingCollaborators : Collaborators Nat Nat :=
  { svm := countingSVM
    converged := fun self => decide (3 ≤ self.rest)
    perform_mkl_step := fun self => { self with rest := self.rest + 1 } }

/-- A backend in which every call succeeds, the environment opening at the
second attempt. -/
def goodBackend : Backend :=
  { freeprob := 0, closeCPLEX := 0, openCPLEX := [none, some 5],
    setintparam_lpmethod := 0, setintparam_datacheck := 0,
    createprob := some 7, lpx_create_prob := some 9 }

/-- A backend that opens the environment and then refuses the dual simplex
method. -/
def refusingBackend : Backend :=
  { goodBackend with openCPLEX := [some 5], setintparam_lpmethod := 1 }

/-- A fresh `CMKL` object with three two-class labels, `epsilon = -1` and
`mkl_iterations = 17` left from an earlier run. -/
def freshMKL : CMKL Nat Nat :=
  { svm := 0, labels := some { num_labels := 3, two_class := true },
    C_mkl := 0, mkl_norm := 1, mkl_iterations := 17, epsilon := -1,
    interleaved_optimization := false, solver_type := .ST_AUTO,
    lp_cplex := none, env := none, lp_glpk := none, lp_initialized := false,
    callback := false, bias := 0, alpha := [], support_vectors := [], rest := 0 }



/-- The identity-like block kernel on four points: `1` inside a sample, `0`
across the samples. -/
def blockKernel : Int → Int → ℚ :=
  fun i j => if decide (i < 2) = decide (j < 2) then 1 else 0

/-- The kernel with every entry `1` (all points equal). -/
def onesKernel : Int → Int → ℚ := fun _ _ => 1

/-- The kernel of pairwise orthogonal unit vectors: `1` on the diagonal, `0`
elsewhere. -/
def deltaKernel : Int → Int → ℚ := fun i j => if i = j then 1 else 0

/-- The linear kernel of the four points `e1, e1, e2, e3`: the diagonal and the
entries `(0,1)`, `(1,0)` are `1`, all others `0`. -/
def twinKernel : Int → Int → ℚ :=
  fun i j => if i = j then 1 else if (i = 0 ∧ j = 1) ∨ (i = 1 ∧ j = 0) then 1 else 0

/-! ## Further readings of the model -/

/-- The value a call returned, if it returned. -/
def Outcome.result {σ α : Type} : Outcome σ α → Option α
  | .returned _ v => some v
  | _ => none

/-- Modelled from the spec: `get_num_support_vectors()` of the `CSVM` base class
(not part of the sources) on the object's own model, the room that
`create_new_model` made. -/
def CMKL.get_num_support_vectors {S W : Type} (self : CMKL S W) : Int :=
  (self.alpha.length : Int)

/-- Modelled from the spec: `get_bias()` on the object's own model. -/
def CMKL.get_bias {S W : Type} (self : CMKL S W) : ℚ := self.bias

/-- Modelled from the spec: `get_alpha(idx)` on the object's own model. -/
def CMKL.get_alpha {S W : Type} (self : CMKL S W) (idx : Int) : ℚ :=
  self.alpha.getD idx.toNat 0

/-- Modelled from the spec: `get_support_vector(idx)` on the object's own
model. -/
def CMKL.get_support_vector {S W : Type} (self : CMKL S W) (idx : Int) : Int :=
  self.support_vectors.getD idx.toNat 0

/-- Whether the CPLEX backend is initialised: the environment is open and the
problem object exists. -/
def CMKL.cplex_initialised {S W : Type} (self : CMKL S W) : Bool :=
  self.env.isSome && self.lp_cplex.isSome

/-- Whether the GLPK backend is initialised: the problem object exists. -/
def CMKL.glpk_initialised {S W : Type} (self : CMKL S W) : Bool :=
  self.lp_glpk.isSome

/-- The object `freshMKL` with a CPLEX environment and a CPLEX problem
allocated. -/
def allocatedMKL : CMKL Nat Nat :=
  { freshMKL with lp_cplex := some 7, env := some 5, lp_initialized := true }

/-- A backend in which `CPXfreeprob` fails with status 1 and every other call
succeeds. -/
def freeFailingBackend : Backend :=
  { goodBackend with freeprob := 1 }

/-- One round of the training loop as the specification lists it: the
sub-solver is trained, then the MKL step is performed, then `mkl_iterations`
is raised by one. -/
def CMKL.spec_round {S W : Type} (c : Collaborators S W) (self : CMKL S W) : CMKL S W :=
  let self := { self with svm := c.svm.train self.svm }
  let self := c.perform_mkl_step self
  { self with mkl_iterations := self.mkl_iterations + 1 }

/-- The record of `k` rounds of the training loop: each round is a training of
the sub-solver followed at once by an MKL step. -/
def trainingRounds : Nat → List Event
  | 0 => []
  | k + 1 => Event.svm_train :: Event.mkl_step :: trainingRounds k

/-- The selection loop of `sample_null_spectrum`: the vector `largest_ev` when
the loop has ended. -/
def CQuadraticTimeMMD.sample_null_spectrum_largest_ev (self : CQuadraticTimeMMD)
    (eigenvalues : SGVector) (num_eigenvalues : Int) : Except String SGVector :=
  forLoop 0 num_eigenvalues (fun i (largest_ev : Except String SGVector) =>
    largest_ev.bind fun largest_ev =>
    (SGVector.read eigenvalues (SGVector.vlen eigenvalues - 1 - i)).bind fun ev =>
    SGVector.write largest_ev i |1 / 2 / (self.m_q_start : ℚ) * ev|)
    (.ok (SGVector.alloc num_eigenvalues))

/-- The sampling loop of `sample_null_spectrum`: the vector `null_samples` when
the loop has ended. -/
def CQuadraticTimeMMD.sample_null_spectrum_null_samples (largest_ev : SGVector)
    (num_samples : Int) : Except String SGVector :=
  forLoop 0 num_samples (fun i (null_samples : Except String SGVector) =>
    null_samples.bind fun null_samples =>
    (SGVector.write null_samples i 0).bind fun null_samples =>
    (forLoop 0 (SGVector.vlen largest_ev) (fun j (null_samples : Except String SGVector) =>
      null_samples.bind fun null_samples =>
      (SGVector.read null_samples i).bind fun cur =>
      (SGVector.read largest_ev j).bind fun ev =>
      SGVector.write null_samples i (cur + ev * (2 : ℚ) ^ 2))
      (.ok null_samples)).bind fun null_samples =>
    (SGVector.read null_samples i).bind fun cur =>
    SGVector.write null_samples i (cur * 2))
    (.ok (SGVector.alloc num_samples))

/-- The entry `i` of `largest_ev` as the code computes it: the eigenvalue at
position `vlen-1-i`, scaled by `1/2/m_q_start`, in absolute value. -/
def scaledEigenvalue (m_q_start : Int) (eigenvalues : SGVector) (i : Int) : ℚ :=
  |1 / 2 / (m_q_start : ℚ) * eigenvalues.getD (SGVector.vlen eigenvalues - 1 - i).toNat 0|

/-- The `k` largest elements of the multiset of the magnitudes `|λ / (2m)|` of
all eigenvalues, as the specification describes the selection. -/
def largestByMagnitude (m : Int) (eigenvalues : SGVector) (k : Nat) : List ℚ :=
  ((eigenvalues.map fun x => |x / (2 * (m : ℚ))|).insertionSort (· ≥ ·)).take k

/-- The `k` largest eigenvalues by value (not by magnitude). -/
def largestEigenvalues (eigenvalues : SGVector) (k : Nat) : List ℚ :=
  (eigenvalues.insertionSort (· ≥ ·)).take k

/-- A symmetric kernel that is not positive semi-definite: `0` on the diagonal,
`1` elsewhere.  On four points the centred matrix has the eigenvalues
`-1, -1, -1, 0`. -/
def offDiagonalKernel : Int → Int → ℚ := fun i j => if i = j then 0 else 1

/-- The three integers by which `compute_statistic` normalises its terms:
`m*(m-1)` for the first, `n*(n-1)` for the second and `m*n` for the third, each
formed in 32 bit `index_t` arithmetic. -/
def CQuadraticTimeMMD.compute_statistic_divisors (self : CQuadraticTimeMMD) : Int × Int × Int :=
  let m := self.m_q_start
  let n := self.m_num_vectors
  (wrap32 (m * wrap32 (m - 1)), wrap32 (n * wrap32 (n - 1)), wrap32 (m * n))

/-! ## Loops -/

theorem loopFrom_last {σ : Type} (body : Int → σ → σ) (k : Nat) (i : Int) (s : σ) :
    loopFrom body (k + 1) i s = body (i + k) (loopFrom body k i s) := by
  induction k generalizing i s with
  | zero => simp [loopFrom]
  | succ k ih =>
    rw [loopFrom, ih (i + 1) (body i s)]
    have e : i + 1 + (k : Int) = i + ((k + 1 : Nat) : Int) := by push_cast; ring
    rw [e]
    rfl

theorem loopFrom_invariant {σ : Type} (P : Int → σ → Prop) (body : Int → σ → σ)
    (k : Nat) (i : Int) (s : σ) (h0 : P i s)
    (hstep : ∀ j t, i ≤ j → j < i + k → P j t → P (j + 1) (body j t)) :
    P (i + k) (loopFrom body k i s) := by
  induction k with
  | zero => simpa [loopFrom] using h0
  | succ k ih =>
    rw [loopFrom_last]
    have h1 : P (i + k) (loopFrom body k i s) :=
      ih (fun j t hj hk hp => hstep j t hj (by push_cast; omega) hp)
    have h2 := hstep (i + k) _ (by omega) (by push_cast; omega) h1
    have e : i + ((k + 1 : Nat) : Int) = i + k + 1 := by push_cast; ring
    rw [e]
    exact h2

theorem forLoop_invariant {σ : Type} (P : Int → σ → Prop) (lo hi : Int)
    (body : Int → σ → σ) (init : σ) (hle : lo ≤ hi) (h0 : P lo init)
    (hstep : ∀ j t, lo ≤ j → j < hi → P j t → P (j + 1) (body j t)) :
    P hi (forLoop lo hi body init) := by
  have h := loopFrom_invariant P body (hi - lo).toNat lo init h0
    (fun j t hj hk hp => hstep j t hj (by omega) hp)
  have e : lo + ((hi - lo).toNat : Int) = hi := by omega
  rw [e] at h
  exact h

theorem forLoop_preserves {σ : Type} (P : σ → Prop) (lo hi : Int)
    (body : Int → σ → σ) (init : σ) (h0 : P init)
    (hstep : ∀ j t, lo ≤ j → j < hi → P t → P (body j t)) :
    P (forLoop lo hi body init) := by
  have h := loopFrom_invariant (fun _ t => P t) body (hi - lo).toNat lo init h0
    (fun j t hj hk hp => hstep j t hj (by omega) hp)
  exact h

theorem forLoop_congr {σ : Type} (lo hi : Int) (body body' : Int → σ → σ) (init : σ)
    (h : ∀ j t, lo ≤ j → j < hi → body j t = body' j t) :
    forLoop lo hi body init = forLoop lo hi body' init := by
  unfold forLoop
  have key : ∀ (k : Nat) (i : Int) (s : σ), lo ≤ i → i + k ≤ hi →
      loopFrom body k i s = loopFrom body' k i s := by
    intro k
    induction k with
    | zero => intro i s _ _; rfl
    | succ k ih =>
      intro i s h1 h2
      rw [loopFrom, loopFrom, h i s h1 (by push_cast at h2; omega)]
      exact ih (i + 1) _ (by omega) (by push_cast at h2 ⊢; omega)
  by_cases hle : lo ≤ hi
  · exact key _ lo init le_rfl (by omega)
  · have e : (hi - lo).toNat = 0 := by omega
    rw [e]; rfl

theorem forLoop_sum (lo hi : Int) (f : Int → ℚ) (a : ℚ) :
    forLoop lo hi (fun i acc => acc + f i) a = a + ∑ i in Finset.Ico lo hi, f i := by
  have key : ∀ (k : Nat) (i : Int) (s : ℚ),
      loopFrom (fun i acc => acc + f i) k i s = s + ∑ x in Finset.range k, f (i + x) := by
    intro k
    induction k with
    | zero => intro i s; simp [loopFrom]
    | succ k ih =>
      intro i s
      rw [loopFrom_last, ih, Finset.sum_range_succ]
      ring
  unfold forLoop
  rw [key, Int.Ico_eq_finset_map, Finset.sum_map]
  rfl


/-! ## The statistic -/

/-- The double loop of a within-sample term adds up the off-diagonal entries of
the block. -/
theorem forLoop_offDiagonal (K : Int → Int → ℚ) (lo hi : Int) :
    forLoop lo hi (fun i acc =>
      forLoop lo hi (fun j acc => if i = j then acc else acc + K i j) acc) (0 : ℚ)
      = offDiagonalSum K lo hi := by
  have inner : ∀ (i : Int) (acc : ℚ),
      forLoop lo hi (fun j acc => if i = j then acc else acc + K i j) acc
        = acc + ∑ j in Finset.Ico lo hi, if i = j then 0 else K i j := by
    intro i acc
    rw [← forLoop_sum]
    congr 1
    funext j acc
    split <;> simp
  simp only [inner]
  rw [forLoop_sum, zero_add]
  rfl

/-- The double loop of the third term adds up the entries of the cross block. -/
theorem forLoop_cross (K : Int → Int → ℚ) (m n : Int) :
    forLoop 0 m (fun i acc => forLoop m n (fun j acc => acc + K i j) acc) (0 : ℚ)
      = crossSum K m n := by
  simp only [forLoop_sum, zero_add]
  rfl

/-- What `compute_statistic` returns, for every kernel and every `m`, `n`: the
second and third sums are scaled with `n`, the number of all vectors, the
products being those of 32 bit arithmetic. -/
theorem compute_statistic_eq (K : Int → Int → ℚ) (n m s e : Int) :
    CQuadraticTimeMMD.compute_statistic ⟨K, n, m, s, e⟩
      = offDiagonalSum K 0 m / ((wrap32 (m * wrap32 (m - 1)) : Int) : ℚ)
        + offDiagonalSum K m n / ((wrap32 (n * wrap32 (n - 1)) : Int) : ℚ)
        - crossSum K m n * (-2 / ((wrap32 (m * n) : Int) : ℚ)) := by
  simp only [CQuadraticTimeMMD.compute_statistic, CQuadraticTimeMMD.compute_statistic_first,
    CQuadraticTimeMMD.compute_statistic_second, CQuadraticTimeMMD.compute_statistic_third,
    forLoop_offDiagonal, forLoop_cross]

theorem wrap32_of_fits (x : Int) (h0 : -2147483648 ≤ x) (h1 : x < 2147483648) :
    wrap32 x = x := by
  unfold wrap32
  omega

/-- Where the products fit into 32 bit, `compute_statistic` returns the three
sums scaled with `m(m-1)`, `n(n-1)` and `m·n`. -/
theorem compute_statistic_eq_of_fits (K : Int → Int → ℚ) (n m s e : Int)
    (hm : 0 ≤ m) (hmn : m ≤ n) (hn : n ≤ 46340) :
    CQuadraticTimeMMD.compute_statistic ⟨K, n, m, s, e⟩
      = offDiagonalSum K 0 m / ((m : ℚ) * ((m : ℚ) - 1))
        + offDiagonalSum K m n / ((n : ℚ) * ((n : ℚ) - 1))
        - crossSum K m n * (-2 / ((m : ℚ) * (n : ℚ))) := by
  have h1 : wrap32 (m - 1) = m - 1 := wrap32_of_fits _ (by omega) (by omega)
  have h2 : wrap32 (n - 1) = n - 1 := wrap32_of_fits _ (by omega) (by omega)
  have h3 : wrap32 (m * (m - 1)) = m * (m - 1) :=
    wrap32_of_fits _ (by nlinarith) (by nlinarith)
  have h4 : wrap32 (n * (n - 1)) = n * (n - 1) :=
    wrap32_of_fits _ (by nlinarith) (by nlinarith)
  have h5 : wrap32 (m * n) = m * n := wrap32_of_fits _ (by nlinarith) (by nlinarith)
  rw [compute_statistic_eq, h1, h2, h3, h4, h5]
  push_cast
  rfl

theorem Ico_zero_two : Finset.Ico (0 : Int) 2 = {0, 1} := by decide

theorem Ico_two_four : Finset.Ico (2 : Int) 4 = {2, 3} := by decide

/-- C1: on the identity-like block kernel with m = 2, n = 4, which the
constructor accepts, `compute_statistic` returns 7/6 while
term1 + term2 − term3 of the specification is 2. -/
theorem C1_compute_statistic_block_kernel :
    CQuadraticTimeMMD.create blockKernel 4 2 = .ok ⟨blockKernel, 4, 2, 0, 0⟩ ∧
    CQuadraticTimeMMD.compute_statistic ⟨blockKernel, 4, 2, 0, 0⟩ = 7 / 6 ∧
    spec_statistic blockKernel 2 4 = 2 := by
  refine ⟨by simp [CQuadraticTimeMMD.create, CQuadraticTimeMMD.init, show Int.tdiv 4 2 = 2 from rfl], ?_, ?_⟩
  · norm_num [CQuadraticTimeMMD.compute_statistic, CQuadraticTimeMMD.compute_statistic_first,
      CQuadraticTimeMMD.compute_statistic_second, CQuadraticTimeMMD.compute_statistic_third,
      forLoop, loopFrom, blockKernel, wrap32]
  · norm_num [spec_statistic, spec_term1, spec_term2, spec_term3, offDiagonalSum, crossSum,
      Ico_zero_two, Ico_two_four, blockKernel, Finset.filter_insert, Finset.filter_singleton]

/-- C2: the kernel `twinKernel` is symmetric and the samples have equal size
(m = 2, n = 4), yet `compute_statistic` returns 1 on it and 1/6 after the two
samples have changed places. -/
theorem C2_compute_statistic_not_symmetric :
    (∀ i j, twinKernel i j = twinKernel j i) ∧
    CQuadraticTimeMMD.create (swapSamples twinKernel 2 4) 4 2
      = .ok ⟨swapSamples twinKernel 2 4, 4, 2, 0, 0⟩ ∧
    CQuadraticTimeMMD.compute_statistic ⟨twinKernel, 4, 2, 0, 0⟩ = 1 ∧
    CQuadraticTimeMMD.compute_statistic ⟨swapSamples twinKernel 2 4, 4, 2, 0, 0⟩ = 1 / 6 := by
  refine ⟨?_, by simp [CQuadraticTimeMMD.create, CQuadraticTimeMMD.init, show Int.tdiv 4 2 = 2 from rfl], ?_, ?_⟩
  · intro i j
    simp only [twinKernel]
    by_cases h : i = j
    · simp [h]
    · have h' : ¬ j = i := fun e => h e.symm
      simp only [h, h', if_false]
      by_cases h1 : (i = 0 ∧ j = 1) ∨ (i = 1 ∧ j = 0)
      · have h2 : (j = 0 ∧ i = 1) ∨ (j = 1 ∧ i = 0) := by omega
        simp [h1, h2]
      · have h2 : ¬ ((j = 0 ∧ i = 1) ∨ (j = 1 ∧ i = 0)) := by omega
        simp [h1, h2]
  · norm_num [CQuadraticTimeMMD.compute_statistic, CQuadraticTimeMMD.compute_statistic_first,
      CQuadraticTimeMMD.compute_statistic_second, CQuadraticTimeMMD.compute_statistic_third,
      forLoop, loopFrom, twinKernel, wrap32]
  · norm_num [CQuadraticTimeMMD.compute_statistic, CQuadraticTimeMMD.compute_statistic_first,
      CQuadraticTimeMMD.compute_statistic_second, CQuadraticTimeMMD.compute_statistic_third,
      forLoop, loopFrom, twinKernel, swapSamples, wrap32]

/-- C4: on the block kernel with m = 2, n = 4 the second term of
`compute_statistic` is 2/(4·3) = 1/6, the term2 of the specification is
2/(2·1) = 1. -/
theorem C4_second_term_block_kernel :
    CQuadraticTimeMMD.compute_statistic_second ⟨blockKernel, 4, 2, 0, 0⟩ = 1 / 6 ∧
    spec_term2 blockKernel 2 4 = 1 := by
  constructor
  · norm_num [CQuadraticTimeMMD.compute_statistic_second, forLoop, loopFrom, blockKernel, wrap32]
  · norm_num [spec_term2, offDiagonalSum, Ico_two_four, blockKernel]

/-- C5: on the kernel of four equal points with m = 2, n = 4 the third term of
`compute_statistic` is (−2/(2·4))·4 = −1, the term3 of the specification is
(−2/(2·2))·4 = −2. -/
theorem C5_third_term_ones_kernel :
    CQuadraticTimeMMD.compute_statistic_third ⟨onesKernel, 4, 2, 0, 0⟩ = -1 ∧
    spec_term3 onesKernel 2 4 = -2 := by
  constructor
  · norm_num [CQuadraticTimeMMD.compute_statistic_third, forLoop, loopFrom, onesKernel, wrap32]
  · norm_num [spec_term3, crossSum, Ico_zero_two, Ico_two_four, onesKernel]

/-- C6: `compute_statistic` returns the same value for two kernels that agree
off the diagonal. -/
theorem C6_compute_statistic_ignores_diagonal (K K' : Int → Int → ℚ) (n m s e : Int)
    (h : ∀ i j, i ≠ j → K i j = K' i j) :
    CQuadraticTimeMMD.compute_statistic ⟨K, n, m, s, e⟩
      = CQuadraticTimeMMD.compute_statistic ⟨K', n, m, s, e⟩ := by
  have hbody : ∀ i : Int, (fun (j : Int) (acc : ℚ) => if i = j then acc else acc + K i j)
      = (fun (j : Int) (acc : ℚ) => if i = j then acc else acc + K' i j) := by
    intro i
    funext j acc
    by_cases hij : i = j
    · simp [hij]
    · simp [hij, h i j hij]
  have h3 : forLoop 0 m (fun i acc => forLoop m n (fun j acc => acc + K i j) acc) (0 : ℚ)
      = forLoop 0 m (fun i acc => forLoop m n (fun j acc => acc + K' i j) acc) (0 : ℚ) := by
    apply forLoop_congr
    intro i acc _ hi
    apply forLoop_congr
    intro j acc' hj _
    rw [h i j (by omega)]
  simp only [CQuadraticTimeMMD.compute_statistic, CQuadraticTimeMMD.compute_statistic_first,
    CQuadraticTimeMMD.compute_statistic_second, CQuadraticTimeMMD.compute_statistic_third,
    hbody, h3]

/-- C6, at an input: the block kernel and the block kernel with its diagonal
replaced by 5. -/
theorem C6_compute_statistic_ignores_diagonal_witness :
    (∀ i j : Int, i ≠ j → blockKernel i j = (fun a b => if a = b then 5 else blockKernel a b) i j) ∧
    CQuadraticTimeMMD.compute_statistic ⟨blockKernel, 4, 2, 0, 0⟩
      = CQuadraticTimeMMD.compute_statistic
          ⟨fun a b => if a = b then 5 else blockKernel a b, 4, 2, 0, 0⟩ :=
  ⟨fun i j hij => by simp [hij],
   C6_compute_statistic_ignores_diagonal blockKernel _ 4 2 0 0
     (fun i j hij => by simp [hij])⟩

/-! ## The equal-size check and the spectrum sampler -/

theorem SGVector.read_ok (v : SGVector) (i : Int) (h0 : 0 ≤ i) (h1 : i < SGVector.vlen v) :
    SGVector.read v i = .ok (v.getD i.toNat 0) := by
  simp [SGVector.read, h0, h1]

theorem SGVector.write_ok (v : SGVector) (i : Int) (x : ℚ) (h0 : 0 ≤ i)
    (h1 : i < SGVector.vlen v) : SGVector.write v i x = .ok (v.set i.toNat x) := by
  simp [SGVector.write, h0, h1]

theorem SGVector.vlen_set (v : SGVector) (k : Nat) (x : ℚ) :
    SGVector.vlen (v.set k x) = SGVector.vlen v := by
  simp [SGVector.vlen]

theorem SGVector.vlen_alloc (len : Int) (h : 0 ≤ len) :
    SGVector.vlen (SGVector.alloc len) = len := by
  simp [SGVector.vlen, SGVector.alloc, h]

theorem Except.ok_bind {ε α β : Type} (a : α) (f : α → Except ε β) :
    (Except.ok a : Except ε α).bind f = f a := rfl

/-- The selection loop of `sample_null_spectrum` completes when every index it
reads lies inside the eigenvalue vector. -/
theorem select_loop_ok (eigenvalues : SGVector) (q num_eigenvalues : Int)
    (h0 : 0 ≤ num_eigenvalues) (hle : num_eigenvalues ≤ SGVector.vlen eigenvalues) :
    ∃ v, forLoop 0 num_eigenvalues (fun i (largest_ev : Except String SGVector) =>
        largest_ev.bind fun largest_ev =>
        (SGVector.read eigenvalues (SGVector.vlen eigenvalues - 1 - i)).bind fun ev =>
        SGVector.write largest_ev i |1 / 2 / (q : ℚ) * ev|)
        (.ok (SGVector.alloc num_eigenvalues)) = .ok v ∧
      SGVector.vlen v = num_eigenvalues := by
  apply forLoop_preserves
    (fun (acc : Except String SGVector) => ∃ v, acc = .ok v ∧ SGVector.vlen v = num_eigenvalues)
  · exact ⟨_, rfl, SGVector.vlen_alloc _ h0⟩
  · rintro j t hj0 hj1 ⟨v, rfl, hv⟩
    have hr := SGVector.read_ok eigenvalues (SGVector.vlen eigenvalues - 1 - j)
      (by omega) (by omega)
    have hw := fun x => SGVector.write_ok v j x hj0 (by omega)
    simp only [Except.ok_bind, hr, hw]
    exact ⟨_, rfl, by rw [SGVector.vlen_set, hv]⟩

/-- The sampling loop of `sample_null_spectrum` completes and fills a vector of
`num_samples` entries. -/
theorem sample_loop_ok (largest_ev : SGVector) (num_samples : Int) (h0 : 0 ≤ num_samples) :
    ∃ v, forLoop 0 num_samples (fun i (null_samples : Except String SGVector) =>
      null_samples.bind fun null_samples =>
      (SGVector.write null_samples i 0).bind fun null_samples =>
      (forLoop 0 (SGVector.vlen largest_ev) (fun j (null_samples : Except String SGVector) =>
        null_samples.bind fun null_samples =>
        (SGVector.read null_samples i).bind fun cur =>
        (SGVector.read largest_ev j).bind fun ev =>
        SGVector.write null_samples i (cur + ev * (2 : ℚ) ^ 2))
        (.ok null_samples)).bind fun null_samples =>
      (SGVector.read null_samples i).bind fun cur =>
      SGVector.write null_samples i (cur * 2))
      (.ok (SGVector.alloc num_samples)) = .ok v ∧ SGVector.vlen v = num_samples := by
  apply forLoop_preserves
    (fun (acc : Except String SGVector) => ∃ v, acc = .ok v ∧ SGVector.vlen v = num_samples)
  · exact ⟨_, rfl, SGVector.vlen_alloc _ h0⟩
  · rintro i t hi0 hi1 ⟨v, rfl, hv⟩
    have inner : ∃ u, forLoop 0 (SGVector.vlen largest_ev)
        (fun j (null_samples : Except String SGVector) =>
          null_samples.bind fun null_samples =>
          (SGVector.read null_samples i).bind fun cur =>
          (SGVector.read largest_ev j).bind fun ev =>
          SGVector.write null_samples i (cur + ev * (2 : ℚ) ^ 2))
        (.ok (v.set i.toNat 0)) = .ok u ∧ SGVector.vlen u = num_samples := by
      apply forLoop_preserves
        (fun (acc : Except String SGVector) => ∃ u, acc = .ok u ∧ SGVector.vlen u = num_samples)
      · exact ⟨_, rfl, by rw [SGVector.vlen_set, hv]⟩
      · rintro j t hj0 hj1 ⟨u, rfl, hu⟩
        have hr1 := SGVector.read_ok u i hi0 (by omega)
        have hr2 := SGVector.read_ok largest_ev j hj0 hj1
        have hw := fun x => SGVector.write_ok u i x hi0 (by omega)
        simp only [Except.ok_bind, hr1, hr2, hw]
        exact ⟨_, rfl, by rw [SGVector.vlen_set, hu]⟩
    obtain ⟨u, hu, hlen⟩ := inner
    have hw0 := SGVector.write_ok v i 0 hi0 (by omega)
    have hr := SGVector.read_ok u i hi0 (by omega)
    have hw := fun x => SGVector.write_ok u i x hi0 (by omega)
    simp only [Except.ok_bind, hw0, hu, hr, hw]
    exact ⟨_, rfl, by rw [SGVector.vlen_set, hlen]⟩

/-- C3: five vectors with partition point 2 (samples of sizes 2 and 3) pass the
equal-size check of the constructor, of `sample_null_spectrum` and of
`compute_p_value_gamma`, because 5/2 = 2 in integer division. -/
theorem C3_unequal_samples_accepted :
    (2 : Int) ≠ 5 - 2 ∧
    CQuadraticTimeMMD.create deltaKernel 5 2 = .ok ⟨deltaKernel, 5, 2, 0, 0⟩ ∧
    CQuadraticTimeMMD.sample_null_spectrum ⟨deltaKernel, 5, 2, 0, 0⟩ [0, 1, 1, 1, 1] 3 1
      = .ok [2, 2, 2] ∧
    (∀ (gamma_cdf : ℚ → ℚ → ℚ → ℚ) (statistic : ℚ), ∃ p,
      CQuadraticTimeMMD.compute_p_value_gamma gamma_cdf ⟨deltaKernel, 5, 2, 0, 0⟩ statistic
        = .ok p) := by
  refine ⟨by decide, ?_, ?_, ?_⟩
  · simp [CQuadraticTimeMMD.create, CQuadraticTimeMMD.init, show Int.tdiv 5 2 = 2 from rfl]
  · simp [CQuadraticTimeMMD.sample_null_spectrum, show Int.tdiv 5 2 = 2 from rfl, forLoop,
      loopFrom, SGVector.alloc, SGVector.read, SGVector.write, SGVector.vlen, Except.bind,
      List.replicate]
    norm_num [abs_of_pos]
  · intro gamma_cdf statistic
    simp [CQuadraticTimeMMD.compute_p_value_gamma, show Int.tdiv 5 2 = 2 from rfl]

/-- C7: with `m_q_start == n/2` and the eigenvalue vector of the n×n matrix,
`sample_null_spectrum` raises an error exactly when `num_samples <= 2` or
`num_eigenvalues < 1` or `num_eigenvalues > 2*m_q_start-1`, and otherwise returns
a vector of `num_samples` entries. -/
theorem C7_sample_null_spectrum_validation (self : CQuadraticTimeMMD) (eigenvalues : SGVector)
    (num_samples num_eigenvalues : Int)
    (hq : self.m_q_start = Int.tdiv self.m_num_vectors 2)
    (hlen : SGVector.vlen eigenvalues = self.m_num_vectors) :
    ((∃ msg, CQuadraticTimeMMD.sample_null_spectrum self eigenvalues num_samples num_eigenvalues
        = .error msg) ↔
      (num_samples ≤ 2 ∨ num_eigenvalues < 1 ∨ num_eigenvalues > 2 * self.m_q_start - 1)) ∧
    (2 < num_samples → 1 ≤ num_eigenvalues → num_eigenvalues ≤ 2 * self.m_q_start - 1 →
      ∃ v, CQuadraticTimeMMD.sample_null_spectrum self eigenvalues num_samples num_eigenvalues
        = .ok v ∧ SGVector.vlen v = num_samples) := by
  have hn : 0 ≤ self.m_num_vectors := by rw [← hlen]; simp [SGVector.vlen]
  have hdiv : 2 * self.m_q_start ≤ self.m_num_vectors := by
    rw [hq, Int.tdiv_eq_ediv hn (by decide)]; omega
  have good : 2 < num_samples → 1 ≤ num_eigenvalues →
      num_eigenvalues ≤ 2 * self.m_q_start - 1 →
      ∃ v, CQuadraticTimeMMD.sample_null_spectrum self eigenvalues num_samples num_eigenvalues
        = .ok v ∧ SGVector.vlen v = num_samples := by
    intro h1 h2 h3
    obtain ⟨ev, hev, -⟩ := select_loop_ok eigenvalues self.m_q_start num_eigenvalues
      (by omega) (by omega)
    obtain ⟨v, hv, hvlen⟩ := sample_loop_ok ev num_samples (by omega)
    refine ⟨v, ?_, hvlen⟩
    unfold CQuadraticTimeMMD.sample_null_spectrum
    rw [if_neg (by simpa using hq), if_neg (by omega), if_neg (by omega), if_neg (by omega)]
    simp only []
    rw [hev]
    exact hv
  refine ⟨⟨?_, ?_⟩, good⟩
  · rintro ⟨msg, hmsg⟩
    by_contra hneg
    obtain ⟨v, hv, -⟩ := good (by omega) (by omega) (by omega)
    rw [hv] at hmsg
    cases hmsg
  · intro h
    unfold CQuadraticTimeMMD.sample_null_spectrum
    rw [if_neg (by simpa using hq)]
    by_cases h1 : num_samples ≤ 2
    · exact ⟨_, if_pos h1⟩
    · rw [if_neg h1]
      by_cases h2 : num_eigenvalues > 2 * self.m_q_start - 1
      · exact ⟨_, if_pos h2⟩
      · rw [if_neg h2]
        have h3 : num_eigenvalues < 1 := by omega
        exact ⟨_, if_pos h3⟩

/-- C7, at an input: four vectors, m_q_start = 2, three samples from the three
largest of the eigenvalues 0, 1, 1, 1. -/
theorem C7_sample_null_spectrum_validation_witness :
    ((∃ msg, CQuadraticTimeMMD.sample_null_spectrum ⟨deltaKernel, 4, 2, 0, 0⟩ [0, 1, 1, 1] 3 3
        = .error msg) ↔
      ((3 : Int) ≤ 2 ∨ (3 : Int) < 1 ∨ (3 : Int) > 2 * 2 - 1)) ∧
    ((2 : Int) < 3 → (1 : Int) ≤ 3 → (3 : Int) ≤ 2 * 2 - 1 →
      ∃ v, CQuadraticTimeMMD.sample_null_spectrum ⟨deltaKernel, 4, 2, 0, 0⟩ [0, 1, 1, 1] 3 3
        = .ok v ∧ SGVector.vlen v = 3) :=
  C7_sample_null_spectrum_validation ⟨deltaKernel, 4, 2, 0, 0⟩ [0, 1, 1, 1] 3 3
    (by decide) (by decide)

/-! ## The Gamma approximation -/

theorem sum_Ico_succ (f : Int → ℚ) (lo j : Int) (h : lo ≤ j) :
    ∑ x in Finset.Ico lo (j + 1), f x = ∑ x in Finset.Ico lo j, f x + f j := by
  have e : Finset.Ico lo (j + 1) = insert j (Finset.Ico lo j) := by
    ext x
    simp only [Finset.mem_Ico, Finset.mem_insert]
    omega
  rw [e, Finset.sum_insert (by simp), add_comm]

/-- The first loop of `compute_p_value_gamma` reads each entry `K(i, m+i)` before
any write reaches it, and leaves `K` with the four block diagonals set to 0. -/
theorem mean_loop_eq (K : SGMatrix) (m : Int) (hm : 0 ≤ m) :
    CQuadraticTimeMMD.compute_p_value_gamma_mean_loop m K
      = (∑ i in Finset.Ico 0 m, K i (m + i), zeroBlockDiagonals K m m) := by
  unfold CQuadraticTimeMMD.compute_p_value_gamma_mean_loop
  have h := forLoop_invariant
    (fun i (st : ℚ × SGMatrix) =>
      st.1 = ∑ x in Finset.Ico 0 i, K x (m + x) ∧ st.2 = zeroBlockDiagonals K m i)
    0 m (fun i st =>
      let mean_mmd := st.1 + st.2 i (m + i)
      let K := st.2
      let K := SGMatrix.assign K i i 0
      let K := SGMatrix.assign K (m + i) (m + i) 0
      let K := SGMatrix.assign K i (m + i) 0
      let K := SGMatrix.assign K (m + i) i 0
      (mean_mmd, K)) (0, K) hm ?_ ?_
  · exact Prod.ext h.1 h.2
  · refine ⟨by simp, ?_⟩
    funext a b
    have : ¬ onBlockDiagonals m 0 a b := by unfold onBlockDiagonals; omega
    simp [zeroBlockDiagonals, this]
  · rintro j ⟨s, M⟩ hj0 hj1 ⟨h1, h2⟩
    simp only at h1 h2
    subst h1 h2
    refine ⟨?_, ?_⟩
    · simp only []
      rw [sum_Ico_succ _ _ _ hj0]
      congr 1
      have : ¬ onBlockDiagonals m j j (m + j) := by unfold onBlockDiagonals; omega
      simp [zeroBlockDiagonals, this]
    · funext a b
      simp only [SGMatrix.assign, zeroBlockDiagonals, onBlockDiagonals]
      split_ifs <;> first | rfl | (exfalso; omega)

/-- The second loop of `compute_p_value_gamma`, run on the matrix the first loop
left behind, adds up the squares for `i ≠ j` on the entries of the original
matrix; the terms with `i = j` are 0. -/
theorem var_loop_eq (K : SGMatrix) (m : Int) :
    CQuadraticTimeMMD.compute_p_value_gamma_var_loop m (zeroBlockDiagonals K m m)
      = ∑ i in Finset.Ico 0 m, ∑ j in Finset.Ico 0 m,
          if i = j then 0 else (K i j + K (m + i) (m + j) - K i (m + j) - K (m + i) j) ^ 2 := by
  unfold CQuadraticTimeMMD.compute_p_value_gamma_var_loop
  have houter := forLoop_congr 0 m
    (fun i (var_mmd : ℚ) =>
      forLoop 0 m (fun j var_mmd =>
        let to_add : ℚ := 0
        let to_add := to_add + zeroBlockDiagonals K m m i j
        let to_add := to_add + zeroBlockDiagonals K m m (m + i) (m + j)
        let to_add := to_add - zeroBlockDiagonals K m m i (m + j)
        let to_add := to_add - zeroBlockDiagonals K m m (m + i) j
        var_mmd + to_add ^ 2) var_mmd)
    (fun i (var_mmd : ℚ) => var_mmd + ∑ j in Finset.Ico 0 m,
      if i = j then 0 else (K i j + K (m + i) (m + j) - K i (m + j) - K (m + i) j) ^ 2)
    0 ?_
  · rw [houter, forLoop_sum, zero_add]
  · intro i acc hi0 hi1
    simp only []
    rw [← forLoop_sum]
    apply forLoop_congr
    intro j acc' hj0 hj1
    by_cases hij : i = j
    · have c1 : onBlockDiagonals m m i j := by unfold onBlockDiagonals; omega
      have c2 : onBlockDiagonals m m (m + i) (m + j) := by unfold onBlockDiagonals; omega
      have c3 : onBlockDiagonals m m i (m + j) := by unfold onBlockDiagonals; omega
      have c4 : onBlockDiagonals m m (m + i) j := by unfold onBlockDiagonals; omega
      simp only [zeroBlockDiagonals, if_pos c1, if_pos c2, if_pos c3, if_pos c4, if_pos hij]
      norm_num
    · have c1 : ¬ onBlockDiagonals m m i j := by unfold onBlockDiagonals; omega
      have c2 : ¬ onBlockDiagonals m m (m + i) (m + j) := by unfold onBlockDiagonals; omega
      have c3 : ¬ onBlockDiagonals m m i (m + j) := by unfold onBlockDiagonals; omega
      have c4 : ¬ onBlockDiagonals m m (m + i) j := by unfold onBlockDiagonals; omega
      simp only [zeroBlockDiagonals, if_neg c1, if_neg c2, if_neg c3, if_neg c4, if_neg hij]
      ring

/-- C8: for a 2m×2m kernel matrix with m ≥ 2, `compute_p_value_gamma` returns
`gamma_cdf(statistic, a, b)` with a = mean²/var and b = var·m/mean, where mean
and var are the closed forms on the entries of the original matrix. -/
theorem C8_compute_p_value_gamma_closed_form (gamma_cdf : ℚ → ℚ → ℚ → ℚ) (K : SGMatrix)
    (m s e : Int) (statistic : ℚ) (hm : 2 ≤ m) :
    CQuadraticTimeMMD.compute_p_value_gamma gamma_cdf ⟨K, 2 * m, m, s, e⟩ statistic
      = .ok (gamma_cdf statistic (spec_mean_mmd K m ^ 2 / spec_var_mmd K m)
          (spec_var_mmd K m * (m : ℚ) / spec_mean_mmd K m)) := by
  have hdiv : m = Int.tdiv (2 * m) 2 := by
    rw [Int.tdiv_eq_ediv (by omega) (by decide)]; omega
  have hmean : 2 / (m : ℚ) * (1 - 1 / (m : ℚ) *
      (CQuadraticTimeMMD.compute_p_value_gamma_mean_loop m K).1) = spec_mean_mmd K m := by
    rw [mean_loop_eq K m (by omega)]
    rfl
  have hvar : CQuadraticTimeMMD.compute_p_value_gamma_var_loop m
      (CQuadraticTimeMMD.compute_p_value_gamma_mean_loop m K).2 *
      (2 / (m : ℚ) / ((m - 1 : Int) : ℚ) * 1 / (m : ℚ) / ((m - 1 : Int) : ℚ))
      = spec_var_mmd K m := by
    rw [mean_loop_eq K m (by omega)]
    simp only []
    rw [var_loop_eq]
    unfold spec_var_mmd
    have h1 : (m : ℚ) ≠ 0 := by
      have : (0 : ℚ) < (m : ℚ) := by exact_mod_cast (by omega : (0 : Int) < m)
      exact ne_of_gt this
    have h2 : (m : ℚ) - 1 ≠ 0 := by
      have : (0 : ℚ) < (m : ℚ) - 1 := by
        have : (1 : ℚ) < (m : ℚ) := by exact_mod_cast (by omega : (1 : Int) < m)
        linarith
      exact ne_of_gt this
    push_cast
    field_simp
    ring
  unfold CQuadraticTimeMMD.compute_p_value_gamma
  simp only []
  rw [if_neg (by simp [← hdiv]), hvar, hmean]

/-- C8, at an input: the symmetric 4-point matrix K(i,j) = i + j + i·j with
m = 2, where mean = −7/2 and var = 16. -/
theorem C8_compute_p_value_gamma_closed_form_witness :
    (2 : Int) ≤ 2 ∧
    spec_mean_mmd (fun i j => ((i + j + i * j : Int) : ℚ)) 2 = -7 / 2 ∧
    spec_var_mmd (fun i j => ((i + j + i * j : Int) : ℚ)) 2 = 16 ∧
    CQuadraticTimeMMD.compute_p_value_gamma (fun x a b => x + a + b)
        ⟨fun i j => ((i + j + i * j : Int) : ℚ), 2 * 2, 2, 0, 0⟩ 1
      = .ok ((fun x a b => x + a + b) 1
          (spec_mean_mmd (fun i j => ((i + j + i * j : Int) : ℚ)) 2 ^ 2
            / spec_var_mmd (fun i j => ((i + j + i * j : Int) : ℚ)) 2)
          (spec_var_mmd (fun i j => ((i + j + i * j : Int) : ℚ)) 2 * ((2 : Int) : ℚ)
            / spec_mean_mmd (fun i j => ((i + j + i * j : Int) : ℚ)) 2)) :=
  ⟨by decide,
   by norm_num [spec_mean_mmd, Ico_zero_two],
   by norm_num [spec_var_mmd, Ico_zero_two],
   C8_compute_p_value_gamma_closed_form (fun x a b => x + a + b)
     (fun i j => ((i + j + i * j : Int) : ℚ)) 2 0 0 1 (by decide)⟩

/-! ## `CMKL::train` -/

theorem cleanup_cplex_epsilon {S W : Type} (b : Backend) (self : CMKL S W) :
    (CMKL.cleanup_cplex b self).1.epsilon = self.epsilon := by
  unfold CMKL.cleanup_cplex
  simp only []
  split_ifs <;> rfl

theorem cleanup_cplex_solver_type {S W : Type} (b : Backend) (self : CMKL S W) :
    (CMKL.cleanup_cplex b self).1.solver_type = self.solver_type := by
  unfold CMKL.cleanup_cplex
  simp only []
  split_ifs <;> rfl

theorem init_cplex_loop_epsilon {S W : Type} (b : Backend) (opens : List (Option Handle))
    (self : CMKL S W) :
    (CMKL.init_cplex_loop b opens self).state.epsilon = self.epsilon := by
  induction opens generalizing self with
  | nil =>
    unfold CMKL.init_cplex_loop
    split_ifs <;> rfl
  | cons r opens ih =>
    unfold CMKL.init_cplex_loop
    simp only []
    split_ifs
    · rw [ih]
    · rfl
    · rfl
    · rfl
    · rw [ih]
    · rfl

theorem init_cplex_epsilon {S W : Type} (b : Backend) (self : CMKL S W) :
    (CMKL.init_cplex b self).state.epsilon = self.epsilon := by
  unfold CMKL.init_cplex
  have h := init_cplex_loop_epsilon b b.openCPLEX self
  cases hr : CMKL.init_cplex_loop b b.openCPLEX self <;> (rw [hr] at h; exact h)

theorem train_cplex_block_epsilon {S W : Type} (cfg : BuildConfig) (b : Backend)
    (self : CMKL S W) :
    (CMKL.train_cplex_block cfg b self).state.epsilon = self.epsilon := by
  unfold CMKL.train_cplex_block
  simp only []
  split_ifs
  · have h := init_cplex_epsilon b (CMKL.cleanup_cplex b self).1
    rw [cleanup_cplex_epsilon] at h
    cases hr : CMKL.init_cplex b (CMKL.cleanup_cplex b self).1 <;> (rw [hr] at h; exact h)
  · exact cleanup_cplex_epsilon b self
  · rfl

theorem train_loop_epsilon {S W : Type} (c : Collaborators S W)
    (hframe : ∀ t, (c.perform_mkl_step t).epsilon = t.epsilon) (fuel : Nat)
    (st : TrainState S W) :
    (CMKL.train_loop c fuel st).state.mkl.epsilon = st.mkl.epsilon := by
  induction fuel generalizing st with
  | zero =>
    unfold CMKL.train_loop
    split_ifs <;> rfl
  | succ fuel ih =>
    unfold CMKL.train_loop
    split_ifs
    · rfl
    · simp only []
      rw [ih, hframe]

theorem train_store_model_epsilon {S W : Type} (c : Collaborators S W) (self : CMKL S W) :
    (CMKL.train_store_model c self).epsilon = self.epsilon := by
  unfold CMKL.train_store_model
  simp only []
  apply forLoop_preserves (fun (t : CMKL S W) => t.epsilon = self.epsilon)
  · rfl
  · intro j t _ _ ht
    simp only [CMKL.set_alpha, CMKL.set_support_vector]
    split_ifs
    exact ht

theorem train_optimize_epsilon {S W : Type} (c : Collaborators S W)
    (hframe : ∀ t, (c.perform_mkl_step t).epsilon = t.epsilon) (fuel : Nat)
    (self : CMKL S W) :
    (CMKL.train_optimize c fuel self).state.mkl.epsilon = self.epsilon := by
  unfold CMKL.train_optimize
  simp only []
  split_ifs
  · rfl
  · rw [train_loop_epsilon c hframe]

theorem train_finish_epsilon {S W : Type} (cfg : BuildConfig) (c : Collaborators S W)
    (b : Backend) (st : TrainState S W) :
    (CMKL.train_finish cfg c b st).mkl.epsilon = st.mkl.epsilon := by
  unfold CMKL.train_finish
  simp only []
  rw [train_store_model_epsilon]
  split_ifs
  · exact cleanup_cplex_epsilon b st.mkl
  · rfl

theorem train_of_labels_ok {S W : Type} (cfg : BuildConfig) (c : Collaborators S W)
    (b : Backend) (fuel : Nat) (self : CMKL S W) (h : CMKL.labels_ok self = true) :
    CMKL.train cfg c b fuel self = CMKL.train_checked cfg c b fuel self := by
  unfold CMKL.train
  unfold CMKL.labels_ok at h
  cases hl : self.labels with
  | none => rw [hl] at h; simp at h
  | some labels =>
    rw [hl] at h
    simp only [Bool.and_eq_true, decide_eq_true_eq] at h
    simp only []
    rw [if_neg h.1, if_neg (by simp [h.2])]

theorem train_of_labels_bad {S W : Type} (cfg : BuildConfig) (c : Collaborators S W)
    (b : Backend) (fuel : Nat) (self : CMKL S W) (h : CMKL.labels_ok self = false) :
    ∃ msg, CMKL.train cfg c b fuel self = .raised { mkl := self, trace := [] } msg := by
  unfold CMKL.train
  unfold CMKL.labels_ok at h
  cases hl : self.labels with
  | none => exact ⟨_, rfl⟩
  | some labels =>
    rw [hl] at h
    simp only []
    by_cases h1 : labels.num_labels = 0
    · exact ⟨_, if_pos h1⟩
    · rw [if_neg h1]
      by_cases h2 : labels.two_class = false
      · exact ⟨_, if_pos h2⟩
      · exfalso
        simp [h1] at h
        exact h2 h

/-- The value of `epsilon` when `train`, past its assertions, ends, whichever way
it ends. -/
theorem train_checked_epsilon {S W : Type} (cfg : BuildConfig) (c : Collaborators S W)
    (b : Backend) (fuel : Nat) (self : CMKL S W)
    (hframe : ∀ t, (c.perform_mkl_step t).epsilon = t.epsilon) :
    (CMKL.train_checked cfg c b fuel self).state.mkl.epsilon
      = (CMKL.clamp_epsilon self).epsilon := by
  unfold CMKL.train_checked
  simp only []
  have hb := train_cplex_block_epsilon cfg b (CMKL.clamp_epsilon self)
  cases hr : CMKL.train_cplex_block cfg b (CMKL.clamp_epsilon self) with
  | raised s msg => rw [hr] at hb; exact hb
  | running s => rw [hr] at hb; exact hb
  | returned s u =>
    rw [hr] at hb
    simp only []
    have ho := train_optimize_epsilon c hframe fuel s
    cases hopt : CMKL.train_optimize c fuel s with
    | raised t msg => rw [hopt] at ho; exact ho.trans hb
    | running t => rw [hopt] at ho; exact ho.trans hb
    | returned t u =>
      rw [hopt] at ho
      show (CMKL.train_finish cfg c b t).mkl.epsilon = _
      rw [train_finish_epsilon]
      exact ho.trans hb

/-- C9: when no collaborator writes `epsilon`, `train()` (with the label
preconditions met) ends with `epsilon` equal to 1e-2 if it was ≤ 0 on entry and
unchanged if it was > 0, so strictly positive; this holds at a normal return, at
an exception raised later and at every observed point of a run still going. -/
theorem C9_train_clamps_epsilon {S W : Type} (cfg : BuildConfig) (c : Collaborators S W)
    (b : Backend) (fuel : Nat) (self : CMKL S W)
    (hframe : ∀ t, (c.perform_mkl_step t).epsilon = t.epsilon)
    (hlabels : CMKL.labels_ok self = true) :
    (CMKL.train cfg c b fuel self).state.mkl.epsilon
        = (if self.epsilon ≤ 0 then 1 / 100 else self.epsilon) ∧
    0 < (CMKL.train cfg c b fuel self).state.mkl.epsilon := by
  have h := train_checked_epsilon cfg c b fuel self hframe
  rw [← train_of_labels_ok cfg c b fuel self hlabels] at h
  have hc : (CMKL.clamp_epsilon self).epsilon
      = (if self.epsilon ≤ 0 then 1 / 100 else self.epsilon) := by
    unfold CMKL.clamp_epsilon
    split_ifs <;> rfl
  rw [h, hc]
  refine ⟨rfl, ?_⟩
  split_ifs with he
  · norm_num
  · exact lt_of_not_ge he

/-- C9, at an input: the run of `freshMKL` (epsilon = −1) returns with
epsilon = 1/100. -/
theorem C9_train_clamps_epsilon_witness :
    (CMKL.train ⟨true, true⟩ countingCollaborators goodBackend 5 freshMKL).hasReturned = true ∧
    (CMKL.train ⟨true, true⟩ countingCollaborators goodBackend 5 freshMKL).state.mkl.epsilon
        = 1 / 100 := by
  have h := C9_train_clamps_epsilon ⟨true, true⟩ countingCollaborators goodBackend 5 freshMKL
    (fun _ => rfl) rfl
  refine ⟨by decide, ?_⟩
  rw [h.1]
  norm_num [freshMKL]

theorem train_loop_not_failed {S W : Type} (c : Collaborators S W) (fuel : Nat)
    (st : TrainState S W) : (CMKL.train_loop c fuel st).failed = false := by
  induction fuel generalizing st with
  | zero =>
    unfold CMKL.train_loop
    split_ifs <;> rfl
  | succ fuel ih =>
    unfold CMKL.train_loop
    split_ifs
    · rfl
    · exact ih _

theorem train_optimize_not_failed {S W : Type} (c : Collaborators S W) (fuel : Nat)
    (self : CMKL S W) : (CMKL.train_optimize c fuel self).failed = false := by
  unfold CMKL.train_optimize
  simp only []
  split_ifs
  · rfl
  · exact train_loop_not_failed c fuel _

/-- Past its assertions `train` raises an exception exactly when its CPLEX block
does. -/
theorem train_checked_failed {S W : Type} (cfg : BuildConfig) (c : Collaborators S W)
    (b : Backend) (fuel : Nat) (self : CMKL S W) :
    (CMKL.train_checked cfg c b fuel self).failed
      = (CMKL.train_cplex_block cfg b (CMKL.clamp_epsilon self)).failed := by
  unfold CMKL.train_checked
  simp only []
  cases hr : CMKL.train_cplex_block cfg b (CMKL.clamp_epsilon self) with
  | raised s msg => rfl
  | running s => rfl
  | returned s u =>
    simp only []
    have ho := train_optimize_not_failed c fuel s
    cases hopt : CMKL.train_optimize c fuel s with
    | raised t msg => rw [hopt] at ho; cases ho
    | running t => rfl
    | returned t u => rfl

theorem train_cplex_block_failed {S W : Type} (cfg : BuildConfig) (b : Backend)
    (self : CMKL S W) :
    (CMKL.train_cplex_block cfg b self).failed = true ↔
      (cfg.USE_CPLEX = true ∧ (self.solver_type = .ST_CPLEX ∨ self.solver_type = .ST_AUTO) ∧
        (CMKL.init_cplex b (CMKL.cleanup_cplex b self).1).failed = true) := by
  unfold CMKL.train_cplex_block
  simp only [cleanup_cplex_solver_type]
  by_cases h1 : cfg.USE_CPLEX = true
  · rw [if_pos h1]
    by_cases h2 : self.solver_type = .ST_CPLEX ∨ self.solver_type = .ST_AUTO
    · rw [if_pos h2]
      cases hr : CMKL.init_cplex b (CMKL.cleanup_cplex b self).1 <;>
        simp [Outcome.andThen, Outcome.failed, h1, h2]
    · rw [if_neg h2]
      simp [Outcome.failed, h2]
  · rw [if_neg h1]
    simp [Outcome.failed, h1]

/-- C10, as stated, fails: in a build with `USE_CPLEX`, `train()` on an object
with three two-class labels raises an exception when the backend refuses the
dual simplex method, after `epsilon` was changed and the environment opened. -/
theorem C10_train_fails_with_good_labels :
    CMKL.labels_ok freshMKL = true ∧
    (CMKL.train ⟨true, false⟩ countingCollaborators refusingBackend 5 freshMKL).failed = true ∧
    (CMKL.train ⟨true, false⟩ countingCollaborators refusingBackend 5 freshMKL).state.mkl.env
      = some 5 ∧
    freshMKL.env = none := by
  decide

/-- C10, amended: `train()` raises an exception exactly when the label checks
fail (no label set bound, an empty one, or not a two-class labeling) or, in a
build with `USE_CPLEX` and solver type `ST_CPLEX` or `ST_AUTO`, when
`init_cplex` raises one; when the label checks fail nothing has been touched:
the object is unchanged and no collaborator was called. -/
theorem C10_train_failure {S W : Type} (cfg : BuildConfig) (c : Collaborators S W)
    (b : Backend) (fuel : Nat) (self : CMKL S W) :
    ((CMKL.train cfg c b fuel self).failed = true ↔
      (CMKL.labels_ok self = false ∨
        (cfg.USE_CPLEX = true ∧
          (self.solver_type = .ST_CPLEX ∨ self.solver_type = .ST_AUTO) ∧
          (CMKL.init_cplex b (CMKL.cleanup_cplex b (CMKL.clamp_epsilon self)).1).failed
            = true))) ∧
    (CMKL.labels_ok self = false →
      ∃ msg, CMKL.train cfg c b fuel self = .raised { mkl := self, trace := [] } msg) := by
  have hst : (CMKL.clamp_epsilon self).solver_type = self.solver_type := by
    unfold CMKL.clamp_epsilon
    split_ifs <;> rfl
  refine ⟨?_, train_of_labels_bad cfg c b fuel self⟩
  by_cases hl : CMKL.labels_ok self = true
  · rw [train_of_labels_ok cfg c b fuel self hl, train_checked_failed,
      train_cplex_block_failed, hst]
    simp [hl]
  · have hl' : CMKL.labels_ok self = false := by simpa using hl
    obtain ⟨msg, hmsg⟩ := train_of_labels_bad cfg c b fuel self hl'
    rw [hmsg]
    simp [Outcome.failed, hl']

/-- C10, at an input: `freshMKL` without a label set; `train()` raises an
exception and leaves the object as it was. -/
theorem C10_train_failure_witness :
    CMKL.labels_ok { freshMKL with labels := none } = false ∧
    ∃ msg, CMKL.train ⟨true, true⟩ countingCollaborators goodBackend 5
        { freshMKL with labels := none }
      = .raised { mkl := { freshMKL with labels := none }, trace := [] } msg :=
  ⟨rfl, (C10_train_failure ⟨true, true⟩ countingCollaborators goodBackend 5
    { freshMKL with labels := none }).2 rfl⟩

/-! ## The model that `CMKL::train` stores -/

theorem forLoop_empty {σ : Type} (lo hi : Int) (body : Int → σ → σ) (init : σ)
    (h : hi ≤ lo) : forLoop lo hi body init = init := by
  unfold forLoop
  have e : (hi - lo).toNat = 0 := by omega
  rw [e]
  rfl

/-- The method `cleanup_cplex` writes `lp_cplex`, `env` and `lp_initialized`
and nothing else. -/
theorem cleanup_cplex_frame {S W : Type} (b : Backend) (self : CMKL S W) :
    ∃ l e i, (CMKL.cleanup_cplex b self).1
      = { self with lp_cplex := l, env := e, lp_initialized := i } := by
  unfold CMKL.cleanup_cplex
  simp only []
  split_ifs <;> exact ⟨_, _, _, rfl⟩

/-- The end of `train` writes `bias`, `alpha` and `support_vectors` and nothing
else. -/
theorem train_store_model_frame {S W : Type} (c : Collaborators S W) (self : CMKL S W) :
    ∃ bb aa ss, CMKL.train_store_model c self
      = { self with bias := bb, alpha := aa, support_vectors := ss } := by
  unfold CMKL.train_store_model
  simp only []
  apply forLoop_preserves
    (fun (t : CMKL S W) => ∃ bb aa ss,
      t = { self with bias := bb, alpha := aa, support_vectors := ss })
  · exact ⟨_, _, _, rfl⟩
  · rintro j t hj0 - ⟨bb, aa, ss, rfl⟩
    simp only [CMKL.set_alpha, CMKL.set_support_vector, if_pos hj0]
    exact ⟨_, _, _, rfl⟩

theorem getD_set_self (l : List ℚ) (k : Nat) (x : ℚ) (h : k < l.length) :
    (l.set k x).getD k 0 = x := by
  rw [List.getD_eq_getElem?_getD, List.getElem?_set_self h]
  rfl

theorem getD_set_ne {α : Type} (l : List α) (k p : Nat) (x d : α) (h : k ≠ p) :
    (l.set k x).getD p d = l.getD p d := by
  rw [List.getD_eq_getElem?_getD, List.getElem?_set_ne h, List.getD_eq_getElem?_getD]

theorem getD_set_self_int (l : List Int) (k : Nat) (x : Int) (h : k < l.length) :
    (l.set k x).getD k 0 = x := by
  rw [List.getD_eq_getElem?_getD, List.getElem?_set_self h]
  rfl

/-- What the end of `train` leaves in the object: room for `nsv` support
vectors, the sub-solver's bias, and for every index below `nsv` the sub-solver's
alpha and support vector; the sub-solver itself is not changed. -/
theorem train_store_model_spec {S W : Type} (c : Collaborators S W) (self : CMKL S W) :
    (CMKL.train_store_model c self).svm = self.svm ∧
    (CMKL.train_store_model c self).bias = c.svm.get_bias self.svm ∧
    (CMKL.train_store_model c self).alpha.length
      = (c.svm.get_num_support_vectors self.svm).toNat ∧
    (CMKL.train_store_model c self).support_vectors.length
      = (c.svm.get_num_support_vectors self.svm).toNat ∧
    ∀ i, 0 ≤ i → i < c.svm.get_num_support_vectors self.svm →
      (CMKL.train_store_model c self).alpha.getD i.toNat 0 = c.svm.get_alpha self.svm i ∧
      (CMKL.train_store_model c self).support_vectors.getD i.toNat 0
        = c.svm.get_support_vector self.svm i := by
  by_cases hn : 0 ≤ c.svm.get_num_support_vectors self.svm
  · unfold CMKL.train_store_model
    simp only []
    have h := forLoop_invariant
      (fun i (t : CMKL S W) =>
        t.svm = self.svm ∧ t.bias = c.svm.get_bias self.svm ∧
        t.alpha.length = (c.svm.get_num_support_vectors self.svm).toNat ∧
        t.support_vectors.length = (c.svm.get_num_support_vectors self.svm).toNat ∧
        ∀ k, 0 ≤ k → k < i →
          t.alpha.getD k.toNat 0 = c.svm.get_alpha self.svm k ∧
          t.support_vectors.getD k.toNat 0 = c.svm.get_support_vector self.svm k)
      0 (c.svm.get_num_support_vectors self.svm)
      (fun i (self : CMKL S W) =>
        let self := CMKL.set_alpha self i (c.svm.get_alpha self.svm i)
        CMKL.set_support_vector self i (c.svm.get_support_vector self.svm i))
      (CMKL.set_bias (CMKL.create_new_model self (c.svm.get_num_support_vectors self.svm))
        (c.svm.get_bias (CMKL.create_new_model self
          (c.svm.get_num_support_vectors self.svm)).svm))
      hn ?_ ?_
    · exact h
    · refine ⟨rfl, rfl, ?_, ?_, ?_⟩
      · simp [CMKL.set_bias, CMKL.create_new_model]
      · simp [CMKL.set_bias, CMKL.create_new_model]
      · intro k hk0 hk1
        omega
    · rintro j t hj0 hj1 ⟨h1, h2, h3, h4, h5⟩
      simp only [CMKL.set_alpha, CMKL.set_support_vector, if_pos hj0]
      refine ⟨h1, h2, ?_, ?_, ?_⟩
      · simp [h3]
      · simp [h4]
      · intro k hk0 hk1
        by_cases hkj : k = j
        · subst hkj
          rw [getD_set_self _ _ _ (by omega), getD_set_self_int _ _ _ (by omega), h1]
          exact ⟨rfl, rfl⟩
        · rw [getD_set_ne _ _ _ _ _ (by omega), getD_set_ne _ _ _ _ _ (by omega)]
          exact h5 k hk0 (by omega)
  · have hn' : c.svm.get_num_support_vectors self.svm ≤ 0 := by omega
    unfold CMKL.train_store_model
    simp only []
    rw [forLoop_empty _ _ _ _ hn']
    refine ⟨rfl, rfl, ?_, ?_, ?_⟩
    · simp [CMKL.set_bias, CMKL.create_new_model]
    · simp [CMKL.set_bias, CMKL.create_new_model]
    · intro i hi0 hi1
      omega
/-- A call of `train` that returns has passed the assertions and the CPLEX
block, has come out of the optimisation, and returns `true` with the state that
`train_finish` makes of it. -/
theorem train_returned {S W : Type} (cfg : BuildConfig) (c : Collaborators S W)
    (b : Backend) (fuel : Nat) (self : CMKL S W)
    (h : (CMKL.train cfg c b fuel self).hasReturned = true) :
    CMKL.labels_ok self = true ∧
    ∃ s t, CMKL.train_cplex_block cfg b (CMKL.clamp_epsilon self) = .returned s () ∧
      CMKL.train_optimize c fuel s = .returned t () ∧
      CMKL.train cfg c b fuel self = .returned (CMKL.train_finish cfg c b t) true := by
  have hl : CMKL.labels_ok self = true := by
    by_contra hl
    have hl' : CMKL.labels_ok self = false := by simpa using hl
    obtain ⟨msg, hmsg⟩ := train_of_labels_bad cfg c b fuel self hl'
    rw [hmsg] at h
    cases h
  refine ⟨hl, ?_⟩
  rw [train_of_labels_ok cfg c b fuel self hl] at h ⊢
  unfold CMKL.train_checked at h ⊢
  simp only [] at h ⊢
  cases hr : CMKL.train_cplex_block cfg b (CMKL.clamp_epsilon self) with
  | raised s msg => rw [hr] at h; cases h
  | running s => rw [hr] at h; cases h
  | returned s u =>
    rw [hr] at h
    simp only [] at h ⊢
    cases hopt : CMKL.train_optimize c fuel s with
    | raised t msg => rw [hopt] at h; cases h
    | running t => rw [hopt] at h; cases h
    | returned t u' => exact ⟨s, t, rfl, hopt, rfl⟩

/-- C11: when `train()` returns, in either optimisation mode, it returns `true`
and the model of the object is the model of the sub-solver as it then is: the
same number of support vectors, the same bias, and for every index below that
number the same alpha and the same support vector. -/
theorem C11_train_stores_subsolver_model {S W : Type} (cfg : BuildConfig)
    (c : Collaborators S W) (b : Backend) (fuel : Nat) (self : CMKL S W)
    (h : (CMKL.train cfg c b fuel self).hasReturned = true) :
    (CMKL.train cfg c b fuel self).result = some true ∧
    (0 ≤ c.svm.get_num_support_vectors (CMKL.train cfg c b fuel self).state.mkl.svm →
      CMKL.get_num_support_vectors (CMKL.train cfg c b fuel self).state.mkl
        = c.svm.get_num_support_vectors (CMKL.train cfg c b fuel self).state.mkl.svm) ∧
    CMKL.get_bias (CMKL.train cfg c b fuel self).state.mkl
      = c.svm.get_bias (CMKL.train cfg c b fuel self).state.mkl.svm ∧
    ∀ i, 0 ≤ i →
      i < c.svm.get_num_support_vectors (CMKL.train cfg c b fuel self).state.mkl.svm →
      CMKL.get_alpha (CMKL.train cfg c b fuel self).state.mkl i
        = c.svm.get_alpha (CMKL.train cfg c b fuel self).state.mkl.svm i ∧
      CMKL.get_support_vector (CMKL.train cfg c b fuel self).state.mkl i
        = c.svm.get_support_vector (CMKL.train cfg c b fuel self).state.mkl.svm i := by
  obtain ⟨-, s, t, -, -, htrain⟩ := train_returned cfg c b fuel self h
  rw [htrain]
  simp only [Outcome.result, Outcome.state, CMKL.train_finish]
  obtain ⟨h1, h2, h3, -, h5⟩ := train_store_model_spec c
    (if cfg.USE_CPLEX = true then (CMKL.cleanup_cplex b t.mkl).1 else t.mkl)
  rw [h1]
  refine ⟨trivial, ?_, h2, h5⟩
  intro hn
  unfold CMKL.get_num_support_vectors
  rw [h3]
  omega

/-- C11, at an input: the run of `freshMKL`, which returns after three rounds
with the three support vectors of the sub-solver. -/
theorem C11_train_stores_subsolver_model_witness :
    (CMKL.train ⟨true, true⟩ countingCollaborators goodBackend 5 freshMKL).hasReturned = true ∧
    (CMKL.train ⟨true, true⟩ countingCollaborators goodBackend 5 freshMKL).result = some true ∧
    CMKL.get_num_support_vectors
      (CMKL.train ⟨true, true⟩ countingCollaborators goodBackend 5 freshMKL).state.mkl = 3 :=
  ⟨by decide,
   (C11_train_stores_subsolver_model ⟨true, true⟩ countingCollaborators goodBackend 5 freshMKL
     (by decide)).1,
   by decide⟩

/-! ## The LP backends -/

/-- What `cleanup_cplex` returns when a problem object and an environment are
allocated: `true` as soon as one of the two releases succeeded. -/
theorem cleanup_cplex_result {S W : Type} (b : Backend) (self : CMKL S W)
    (hlp : self.lp_cplex.isSome = true) (henv : self.env.isSome = true) :
    (CMKL.cleanup_cplex b self).2 = true ↔ (b.freeprob = 0 ∨ b.closeCPLEX = 0) := by
  unfold CMKL.cleanup_cplex
  simp only [hlp, if_true]
  by_cases h1 : b.freeprob = 0 <;> by_cases h2 : b.closeCPLEX = 0 <;> simp [h1, h2, henv]

/-- After `cleanup_cplex` neither a problem object nor an environment is left. -/
theorem cleanup_cplex_released {S W : Type} (b : Backend) (self : CMKL S W) :
    (CMKL.cleanup_cplex b self).1.lp_cplex = none ∧ (CMKL.cleanup_cplex b self).1.env = none := by
  unfold CMKL.cleanup_cplex
  cases h1 : self.lp_cplex <;> cases h2 : self.env <;>
    by_cases h3 : b.freeprob = 0 <;> by_cases h4 : b.closeCPLEX = 0 <;> simp [h1, h2, h3, h4]

/-- With nothing allocated `cleanup_cplex` returns `false`. -/
theorem cleanup_cplex_nothing {S W : Type} (b : Backend) (self : CMKL S W)
    (hlp : self.lp_cplex = none) (henv : self.env = none) :
    (CMKL.cleanup_cplex b self).2 = false := by
  unfold CMKL.cleanup_cplex
  simp [hlp, henv]

/-- C12: the second of two successive calls of `cleanup_cplex` returns `false`,
from every state and whatever the backend answers; on `allocatedMKL` with every
release succeeding the first call returns `true` and the second `false`.  The
two calls of `cleanup_glpk` both return `true`. -/
theorem C12_cleanup_twice :
    (∀ (S W : Type) (b : Backend) (self : CMKL S W),
      (CMKL.cleanup_cplex b (CMKL.cleanup_cplex b self).1).2 = false) ∧
    goodBackend.freeprob = 0 ∧ goodBackend.closeCPLEX = 0 ∧
    (CMKL.cleanup_cplex goodBackend allocatedMKL).2 = true ∧
    (CMKL.cleanup_cplex goodBackend (CMKL.cleanup_cplex goodBackend allocatedMKL).1).2 = false ∧
    (∀ (S W : Type) (self : CMKL S W),
      (CMKL.cleanup_glpk self).2 = true ∧
      (CMKL.cleanup_glpk (CMKL.cleanup_glpk self).1).2 = true) := by
  refine ⟨?_, rfl, rfl, by decide, by decide, fun _ _ _ => ⟨rfl, rfl⟩⟩
  intro S W b self
  exact cleanup_cplex_nothing b _ (cleanup_cplex_released b self).1
    (cleanup_cplex_released b self).2

/-- C13: on `allocatedMKL`, where a problem object and an environment are
allocated, with `CPXfreeprob` failing (status 1) and `CPXcloseCPLEX` succeeding
(status 0), `cleanup_cplex` returns `true`. -/
theorem C13_cleanup_cplex_reports_success_after_failure :
    allocatedMKL.lp_cplex.isSome = true ∧ allocatedMKL.env.isSome = true ∧
    freeFailingBackend.freeprob = 1 ∧ freeFailingBackend.closeCPLEX = 0 ∧
    (CMKL.cleanup_cplex freeFailingBackend allocatedMKL).2 = true := by
  decide
theorem init_cplex_loop_of_env {S W : Type} (b : Backend) (opens : List (Option Handle))
    (self : CMKL S W) (h : self.env ≠ none) :
    CMKL.init_cplex_loop b opens self = .returned self () := by
  cases opens with
  | nil => unfold CMKL.init_cplex_loop; rw [if_neg h]
  | cons r opens => unfold CMKL.init_cplex_loop; rw [if_neg h]

/-- With a backend that opens at some attempt and then accepts every call, the
loop of `init_cplex` ends with the environment open and the problem created. -/
theorem init_cplex_loop_succeeds {S W : Type} (b : Backend)
    (hlp : b.setintparam_lpmethod = 0) (hdc : b.setintparam_datacheck = 0)
    (hcp : b.createprob.isSome = true) (opens : List (Option Handle))
    (hopen : ∃ h, some h ∈ opens) (self : CMKL S W) (henv : self.env = none) :
    ∃ h, CMKL.init_cplex_loop b opens self
      = .returned { self with env := some h, lp_cplex := b.createprob } () := by
  induction opens generalizing self with
  | nil =>
    obtain ⟨h, hh⟩ := hopen
    cases hh
  | cons r opens ih =>
    unfold CMKL.init_cplex_loop
    rw [if_pos henv]
    simp only []
    cases r with
    | none =>
      rw [if_pos rfl]
      have hopen' : ∃ h, some h ∈ opens := by
        obtain ⟨h, hh⟩ := hopen
        rcases List.mem_cons.mp hh with hh | hh
        · cases hh
        · exact ⟨h, hh⟩
      obtain ⟨h, hh⟩ := ih hopen' { self with env := none } rfl
      exact ⟨h, hh⟩
    | some h =>
      have hne : b.createprob ≠ none := by
        intro e
        rw [e] at hcp
        cases hcp
      rw [if_neg (by simp), if_neg (by simp [hlp]), if_neg (by simp [hdc]), if_neg hne]
      exact ⟨h, init_cplex_loop_of_env b opens _ (by simp)⟩

/-- C14, as stated, fails: in automatic mode with `mkl_norm == 1` and both
backends compiled in, `init_solver` initialises the CPLEX backend as well as the
GLPK backend. -/
theorem C14_init_solver_auto_norm_one_initialises_both :
    freshMKL.solver_type = .ST_AUTO ∧ freshMKL.mkl_norm = 1 ∧
    (CMKL.init_solver ⟨true, true⟩ goodBackend freshMKL).hasReturned = true ∧
    CMKL.cplex_initialised (CMKL.init_solver ⟨true, true⟩ goodBackend freshMKL).state = true ∧
    CMKL.glpk_initialised (CMKL.init_solver ⟨true, true⟩ goodBackend freshMKL).state = true := by
  decide

/-- C14, amended: with both backends compiled in and a backend that opens at
some attempt and accepts every call, `init_solver` returns; the CPLEX backend is
then initialised exactly when the solver type is `ST_CPLEX` or `ST_AUTO`, and
the GLPK backend exactly when it is `ST_GLPK`, or `ST_AUTO` with
`mkl_norm == 1`. -/
theorem C14_init_solver_selection {S W : Type} (b : Backend) (self : CMKL S W)
    (hopen : ∃ h, some h ∈ b.openCPLEX)
    (hlp : b.setintparam_lpmethod = 0) (hdc : b.setintparam_datacheck = 0)
    (hcp : b.createprob.isSome = true) (hgl : b.lpx_create_prob.isSome = true) :
    (CMKL.init_solver ⟨true, true⟩ b self).hasReturned = true ∧
    (CMKL.cplex_initialised (CMKL.init_solver ⟨true, true⟩ b self).state = true ↔
      (self.solver_type = .ST_CPLEX ∨ self.solver_type = .ST_AUTO)) ∧
    (CMKL.glpk_initialised (CMKL.init_solver ⟨true, true⟩ b self).state = true ↔
      (self.solver_type = .ST_GLPK ∨ (self.mkl_norm = 1 ∧ self.solver_type = .ST_AUTO))) := by
  obtain ⟨l, e, i, hframe⟩ := cleanup_cplex_frame b self
  obtain ⟨hl, he⟩ := cleanup_cplex_released b self
  rw [hframe] at hl he
  simp only at hl he
  subst hl he
  obtain ⟨h, hloop⟩ := init_cplex_loop_succeeds b hlp hdc hcp b.openCPLEX hopen
    { self with lp_cplex := none, env := none, lp_initialized := i } rfl
  unfold CMKL.init_solver
  simp only [hframe, if_true]
  by_cases hc : self.solver_type = .ST_CPLEX ∨ self.solver_type = .ST_AUTO
  · rw [if_pos hc]
    simp only [CMKL.init_cplex, hloop, Outcome.andThen, CMKL.cleanup_glpk, CMKL.init_glpk]
    by_cases hg : self.solver_type = .ST_GLPK ∨ (self.mkl_norm = 1 ∧ self.solver_type = .ST_AUTO)
    · rw [if_pos hg]
      simp [Outcome.hasReturned, Outcome.state, CMKL.cplex_initialised, CMKL.glpk_initialised,
        hc, hg, hcp, hgl]
    · rw [if_neg hg]
      simp [Outcome.hasReturned, Outcome.state, CMKL.cplex_initialised, CMKL.glpk_initialised,
        hc, hg, hcp]
  · rw [if_neg hc]
    simp only [Outcome.andThen, CMKL.cleanup_glpk, CMKL.init_glpk]
    by_cases hg : self.solver_type = .ST_GLPK ∨ (self.mkl_norm = 1 ∧ self.solver_type = .ST_AUTO)
    · rw [if_pos hg]
      simp [Outcome.hasReturned, Outcome.state, CMKL.cplex_initialised, CMKL.glpk_initialised,
        hc, hg, hgl]
    · rw [if_neg hg]
      simp [Outcome.hasReturned, Outcome.state, CMKL.cplex_initialised, CMKL.glpk_initialised,
        hc, hg]

/-- C14, at an input: `freshMKL` with the explicit solver type `ST_GLPK`; the
GLPK backend alone is initialised. -/
theorem C14_init_solver_selection_witness :
    CMKL.glpk_initialised
      (CMKL.init_solver ⟨true, true⟩ goodBackend
        { freshMKL with solver_type := .ST_GLPK }).state = true ∧
    CMKL.cplex_initialised
      (CMKL.init_solver ⟨true, true⟩ goodBackend
        { freshMKL with solver_type := .ST_GLPK }).state = false := by
  have h := C14_init_solver_selection goodBackend { freshMKL with solver_type := .ST_GLPK }
    ⟨5, by decide⟩ rfl rfl rfl rfl
  refine ⟨h.2.2.mpr (Or.inl rfl), ?_⟩
  cases hc : CMKL.cplex_initialised
      (CMKL.init_solver ⟨true, true⟩ goodBackend
        { freshMKL with solver_type := .ST_GLPK }).state with
  | false => rfl
  | true =>
    rcases h.2.1.mp hc with h1 | h1 <;> cases h1

/-! ## The training loop -/

theorem trainingRounds_count (k : Nat) :
    (trainingRounds k).count Event.svm_train = k ∧
    (trainingRounds k).count Event.mkl_step = k := by
  induction k with
  | zero => exact ⟨rfl, rfl⟩
  | succ k ih =>
    unfold trainingRounds
    constructor
    · rw [List.count_cons_self, List.count_cons_of_ne (by decide), ih.1]
    · rw [List.count_cons_of_ne (by decide), List.count_cons_self, ih.2]

/-- The loop of `train`, when it ends, ends on a state in which `converged()`
holds, after `k` whole rounds, with `mkl_iterations` raised by `k`. -/
theorem train_loop_returned {S W : Type} (c : Collaborators S W)
    (hframe : ∀ t, (c.perform_mkl_step t).mkl_iterations = t.mkl_iterations)
    (fuel : Nat) (st st' : TrainState S W) (u : Unit)
    (h : CMKL.train_loop c fuel st = .returned st' u) :
    c.converged st'.mkl = true ∧
    ∃ k : Nat, st'.trace = st.trace ++ trainingRounds k ∧
      st'.mkl.mkl_iterations = st.mkl.mkl_iterations + k := by
  induction fuel generalizing st with
  | zero =>
    unfold CMKL.train_loop at h
    by_cases hc : c.converged st.mkl = true
    · rw [if_pos hc] at h
      cases h
      exact ⟨hc, 0, by simp [trainingRounds], by simp⟩
    · rw [if_neg hc] at h
      cases h
  | succ fuel ih =>
    unfold CMKL.train_loop at h
    by_cases hc : c.converged st.mkl = true
    · rw [if_pos hc] at h
      cases h
      exact ⟨hc, 0, by simp [trainingRounds], by simp⟩
    · rw [if_neg hc] at h
      obtain ⟨h1, k, h2, h3⟩ := ih _ h
      refine ⟨h1, k + 1, ?_, ?_⟩
      · rw [h2]
        simp [trainingRounds]
      · rw [h3]
        simp only [hframe]
        push_cast
        ring

/-- The CPLEX block of `train` writes `lp_cplex`, `env` and `lp_initialized`
and nothing else. -/
theorem init_cplex_loop_frame {S W : Type} (b : Backend) (opens : List (Option Handle))
    (self : CMKL S W) :
    ∃ l e, (CMKL.init_cplex_loop b opens self).state = { self with lp_cplex := l, env := e } := by
  induction opens generalizing self with
  | nil =>
    unfold CMKL.init_cplex_loop
    split_ifs <;> exact ⟨_, _, rfl⟩
  | cons r opens ih =>
    unfold CMKL.init_cplex_loop
    simp only []
    split_ifs
    · obtain ⟨l, e, h⟩ := ih { self with env := r }
      exact ⟨l, e, h⟩
    · exact ⟨_, _, rfl⟩
    · exact ⟨_, _, rfl⟩
    · exact ⟨_, _, rfl⟩
    · obtain ⟨l, e, h⟩ := ih { self with env := r, lp_cplex := b.createprob }
      exact ⟨l, e, h⟩
    · exact ⟨_, _, rfl⟩

theorem train_cplex_block_frame {S W : Type} (cfg : BuildConfig) (b : Backend)
    (self : CMKL S W) :
    ∃ l e i, (CMKL.train_cplex_block cfg b self).state
      = { self with lp_cplex := l, env := e, lp_initialized := i } := by
  unfold CMKL.train_cplex_block
  simp only []
  obtain ⟨l, e, i, hc⟩ := cleanup_cplex_frame b self
  split_ifs
  · obtain ⟨l', e', h⟩ := init_cplex_loop_frame b b.openCPLEX (CMKL.cleanup_cplex b self).1
    unfold CMKL.init_cplex
    cases hr : CMKL.init_cplex_loop b b.openCPLEX (CMKL.cleanup_cplex b self).1 <;>
      (rw [hr] at h; simp only [Outcome.andThen, Outcome.state] at h ⊢; rw [h, hc];
       exact ⟨_, _, _, rfl⟩)
  · exact ⟨l, e, i, hc⟩
  · exact ⟨_, _, _, rfl⟩

/-- The loop of `train`, when it ends after `k` rounds, ends on the state that
`k` rounds [sub-solver training; MKL step; `mkl_iterations += 1`] make of the
state it started on; `converged()` did not hold before any of these rounds and
holds after the last. -/
theorem train_loop_rounds {S W : Type} (c : Collaborators S W)
    (fuel : Nat) (st st' : TrainState S W) (u : Unit)
    (h : CMKL.train_loop c fuel st = .returned st' u) :
    ∃ k : Nat, st'.mkl = (CMKL.spec_round c)^[k] st.mkl ∧
      (∀ j, j < k → c.converged ((CMKL.spec_round c)^[j] st.mkl) = false) ∧
      c.converged st'.mkl = true ∧
      st'.trace = st.trace ++ trainingRounds k := by
  induction fuel generalizing st with
  | zero =>
    unfold CMKL.train_loop at h
    by_cases hc : c.converged st.mkl = true
    · rw [if_pos hc] at h
      cases h
      exact ⟨0, rfl, fun j hj => by omega, hc, by simp [trainingRounds]⟩
    · rw [if_neg hc] at h
      cases h
  | succ fuel ih =>
    unfold CMKL.train_loop at h
    by_cases hc : c.converged st.mkl = true
    · rw [if_pos hc] at h
      cases h
      exact ⟨0, rfl, fun j hj => by omega, hc, by simp [trainingRounds]⟩
    · rw [if_neg hc] at h
      obtain ⟨k, h1, h2, h3, h4⟩ := ih _ h
      refine ⟨k + 1, ?_, ?_, h3, ?_⟩
      · rw [h1, Function.iterate_succ_apply]
        rfl
      · intro j hj
        cases j with
        | zero => simpa using hc
        | succ j =>
          rw [Function.iterate_succ_apply]
          exact h2 j (by omega)
      · rw [h4]
        simp [trainingRounds]

theorem spec_round_iterate_mkl_iterations {S W : Type} (c : Collaborators S W)
    (hframe : ∀ t, (c.perform_mkl_step t).mkl_iterations = t.mkl_iterations)
    (k : Nat) (self : CMKL S W) :
    ((CMKL.spec_round c)^[k] self).mkl_iterations = self.mkl_iterations + k := by
  have hstep : ∀ t : CMKL S W,
      (CMKL.spec_round c t).mkl_iterations = t.mkl_iterations + 1 := by
    intro t
    unfold CMKL.spec_round
    simp only [hframe]
  induction k with
  | zero => simp
  | succ k ih =>
    rw [Function.iterate_succ_apply', hstep, ih]
    push_cast
    ring

/-- C15: in non-interleaved mode a call of `train()` that returns has reset
`mkl_iterations` to 0 and then run `k` whole rounds [sub-solver training; MKL
step; `mkl_iterations += 1`]: the state `t` the loop ended on is the `k`-fold
iterate of that round on the state after the reset, `converged()` did not hold
before any of the rounds and holds on `t` (and on the returned state if
`converged()` does not read what the end of `train` writes), and the returned
state is what the end of `train` makes of `t`.  When no MKL step writes
`mkl_iterations`, it is `k` on return, and so are the number of sub-solver
trainings and the number of MKL steps on record, each step right after a
training. -/
theorem C15_train_rounds {S W : Type} (cfg : BuildConfig) (c : Collaborators S W)
    (b : Backend) (fuel : Nat) (self : CMKL S W)
    (hframe : ∀ t, (c.perform_mkl_step t).mkl_iterations = t.mkl_iterations)
    (hmode : self.interleaved_optimization = false)
    (h : (CMKL.train cfg c b fuel self).hasReturned = true) :
    ∃ (k : Nat) (t : TrainState S W),
      t.mkl = (CMKL.spec_round c)^[k]
        { (CMKL.train_cplex_block cfg b (CMKL.clamp_epsilon self)).state with
          mkl_iterations := 0 } ∧
      (∀ j, j < k → c.converged ((CMKL.spec_round c)^[j]
        { (CMKL.train_cplex_block cfg b (CMKL.clamp_epsilon self)).state with
          mkl_iterations := 0 }) = false) ∧
      c.converged t.mkl = true ∧
      (CMKL.train cfg c b fuel self).state = CMKL.train_finish cfg c b t ∧
      ((∀ t', c.converged (CMKL.train_finish cfg c b t').mkl = c.converged t'.mkl) →
        c.converged (CMKL.train cfg c b fuel self).state.mkl = true) ∧
      (CMKL.train cfg c b fuel self).state.trace = trainingRounds k ∧
      (CMKL.train cfg c b fuel self).state.mkl.mkl_iterations = (k : Int) ∧
      (CMKL.train cfg c b fuel self).state.trace.count Event.svm_train = k ∧
      (CMKL.train cfg c b fuel self).state.trace.count Event.mkl_step = k := by
  obtain ⟨-, s, t, hblock, hopt, htrain⟩ := train_returned cfg c b fuel self h
  have hs : s.interleaved_optimization = false := by
    obtain ⟨l, e, i, hf⟩ := train_cplex_block_frame cfg b (CMKL.clamp_epsilon self)
    rw [hblock] at hf
    simp only [Outcome.state] at hf
    rw [hf]
    unfold CMKL.clamp_epsilon
    split_ifs <;> exact hmode
  have hcond : ¬ (s.interleaved_optimization = true) := by rw [hs]; decide
  have hloop : CMKL.train_optimize c fuel s
      = CMKL.train_loop c fuel { mkl := { s with mkl_iterations := 0 }, trace := [] } := by
    unfold CMKL.train_optimize
    exact if_neg hcond
  rw [hloop] at hopt
  obtain ⟨k, hiter, hnot, hconv, htrace⟩ := train_loop_rounds c fuel _ t () hopt
  simp only [List.nil_append] at htrace hiter hnot
  have hcount : t.mkl.mkl_iterations = (k : Int) := by
    rw [hiter, spec_round_iterate_mkl_iterations c hframe]
    simp
  have hfin_iter : (CMKL.train_finish cfg c b t).mkl.mkl_iterations = t.mkl.mkl_iterations := by
    unfold CMKL.train_finish
    simp only []
    obtain ⟨bb, aa, ss, hm⟩ := train_store_model_frame c
      (if cfg.USE_CPLEX = true then (CMKL.cleanup_cplex b t.mkl).1 else t.mkl)
    rw [hm]
    simp only []
    split_ifs
    · obtain ⟨l, e, i, hc⟩ := cleanup_cplex_frame b t.mkl
      rw [hc]
    · rfl
  have hfin_trace : (CMKL.train_finish cfg c b t).trace = t.trace := rfl
  rw [hblock]
  simp only [Outcome.state]
  refine ⟨k, t, hiter, hnot, hconv, ?_, ?_, ?_, ?_, ?_, ?_⟩
  · rw [htrain]
  · intro hblind
    rw [htrain]
    simp only []
    rw [hblind, hconv]
  · rw [htrain]; simp only []; rw [hfin_trace, htrace]
  · rw [htrain]; simp only []; rw [hfin_iter, hcount]
  · rw [htrain]; simp only []; rw [hfin_trace, htrace]
    exact (trainingRounds_count k).1
  · rw [htrain]; simp only []; rw [hfin_trace, htrace]
    exact (trainingRounds_count k).2

/-- C15, at an input: the run of `freshMKL`, which enters with
`mkl_iterations = 17` and returns after three rounds with `mkl_iterations = 3`,
the sub-solver trained three times and three MKL steps done. -/
theorem C15_train_rounds_witness :
    (CMKL.train ⟨true, true⟩ countingCollaborators goodBackend 5 freshMKL).hasReturned = true ∧
    (CMKL.train ⟨true, true⟩ countingCollaborators goodBackend 5 freshMKL).state.mkl.mkl_iterations
      = 3 ∧
    (CMKL.train ⟨true, true⟩ countingCollaborators goodBackend 5 freshMKL).state.mkl.svm = 3 ∧
    (CMKL.train ⟨true, true⟩ countingCollaborators goodBackend 5 freshMKL).state.mkl.rest = 3 ∧
    ∃ (k : Nat) (t : TrainState Nat Nat),
      t.mkl = (CMKL.spec_round countingCollaborators)^[k]
        { (CMKL.train_cplex_block ⟨true, true⟩ goodBackend
            (CMKL.clamp_epsilon freshMKL)).state with mkl_iterations := 0 } ∧
      countingCollaborators.converged t.mkl = true ∧
      (CMKL.train ⟨true, true⟩ countingCollaborators goodBackend 5 freshMKL).state
        = CMKL.train_finish ⟨true, true⟩ countingCollaborators goodBackend t ∧
      (CMKL.train ⟨true, true⟩ countingCollaborators goodBackend 5 freshMKL).state.trace
        = trainingRounds k ∧
      (CMKL.train ⟨true, true⟩ countingCollaborators goodBackend 5 freshMKL).state.mkl.mkl_iterations
        = (k : Int) := by
  obtain ⟨k, t, h1, -, h2, h3, -, h4, h5, -, -⟩ :=
    C15_train_rounds ⟨true, true⟩ countingCollaborators goodBackend 5 freshMKL
      (fun _ => rfl) rfl (by decide)
  exact ⟨by decide, by decide, by decide, by decide, k, t, h1, h2, h3, h4, h5⟩

/-! ## The spectrum sampler, entry by entry -/

/-- After its checks `sample_null_spectrum` is the selection loop followed by
the sampling loop. -/
theorem sample_null_spectrum_unfold (self : CQuadraticTimeMMD) (eigenvalues : SGVector)
    (num_samples num_eigenvalues : Int)
    (hq : self.m_q_start = Int.tdiv self.m_num_vectors 2) (h1 : 2 < num_samples)
    (h2 : 1 ≤ num_eigenvalues) (h3 : num_eigenvalues ≤ 2 * self.m_q_start - 1) :
    CQuadraticTimeMMD.sample_null_spectrum self eigenvalues num_samples num_eigenvalues
      = (CQuadraticTimeMMD.sample_null_spectrum_largest_ev self eigenvalues
          num_eigenvalues).bind fun largest_ev =>
        CQuadraticTimeMMD.sample_null_spectrum_null_samples largest_ev num_samples := by
  unfold CQuadraticTimeMMD.sample_null_spectrum
  rw [if_neg (by simpa using hq), if_neg (by omega), if_neg (by omega), if_neg (by omega)]
  rfl

/-- The selection loop completes, and entry `i` of `largest_ev` is the scaled
magnitude of the eigenvalue at position `vlen-1-i`. -/
theorem largest_ev_spec (self : CQuadraticTimeMMD) (eigenvalues : SGVector)
    (num_eigenvalues : Int) (h0 : 0 ≤ num_eigenvalues)
    (hle : num_eigenvalues ≤ SGVector.vlen eigenvalues) :
    ∃ v, CQuadraticTimeMMD.sample_null_spectrum_largest_ev self eigenvalues num_eigenvalues
        = .ok v ∧
      SGVector.vlen v = num_eigenvalues ∧
      ∀ i, 0 ≤ i → i < num_eigenvalues →
        v.getD i.toNat 0 = scaledEigenvalue self.m_q_start eigenvalues i := by
  unfold CQuadraticTimeMMD.sample_null_spectrum_largest_ev
  have h := forLoop_invariant
    (fun i (acc : Except String SGVector) => ∃ v, acc = .ok v ∧
      SGVector.vlen v = num_eigenvalues ∧
      ∀ k, 0 ≤ k → k < i → v.getD k.toNat 0 = scaledEigenvalue self.m_q_start eigenvalues k)
    0 num_eigenvalues
    (fun i (largest_ev : Except String SGVector) =>
      largest_ev.bind fun largest_ev =>
      (SGVector.read eigenvalues (SGVector.vlen eigenvalues - 1 - i)).bind fun ev =>
      SGVector.write largest_ev i |1 / 2 / (self.m_q_start : ℚ) * ev|)
    (.ok (SGVector.alloc num_eigenvalues)) h0 ?_ ?_
  · exact h
  · exact ⟨_, rfl, SGVector.vlen_alloc _ h0, fun k hk0 hk1 => by omega⟩
  · rintro j t hj0 hj1 ⟨v, rfl, hv, hpt⟩
    have hr := SGVector.read_ok eigenvalues (SGVector.vlen eigenvalues - 1 - j)
      (by omega) (by omega)
    have hw := fun x => SGVector.write_ok v j x hj0 (by omega)
    simp only [Except.ok_bind, hr, hw]
    refine ⟨_, rfl, by rw [SGVector.vlen_set, hv], ?_⟩
    intro k hk0 hk1
    have hjlen : j.toNat < v.length := by
      have : (j : Int) < (v.length : Int) := by
        have := hv
        unfold SGVector.vlen at this
        omega
      omega
    by_cases hkj : k = j
    · subst hkj
      rw [getD_set_self _ _ _ hjlen]
      rfl
    · rw [getD_set_ne _ _ _ _ _ (by omega)]
      exact hpt k hk0 (by omega)

/-- The inner loop of the sampling loop adds `largest_ev[j] * 2^2` for every `j`
to entry `i`, which starts at 0. -/
theorem null_samples_inner (largest_ev w : SGVector) (i : Int) (hi0 : 0 ≤ i)
    (hi1 : i < SGVector.vlen w) :
    forLoop 0 (SGVector.vlen largest_ev) (fun j (null_samples : Except String SGVector) =>
        null_samples.bind fun null_samples =>
        (SGVector.read null_samples i).bind fun cur =>
        (SGVector.read largest_ev j).bind fun ev =>
        SGVector.write null_samples i (cur + ev * (2 : ℚ) ^ 2))
        (.ok (w.set i.toNat 0))
      = .ok (w.set i.toNat
          (∑ j in Finset.Ico 0 (SGVector.vlen largest_ev), largest_ev.getD j.toNat 0 * 2 ^ 2)) := by
  have hilen : i.toNat < w.length := by
    unfold SGVector.vlen at hi1
    omega
  have h := forLoop_invariant
    (fun j (acc : Except String SGVector) =>
      acc = .ok (w.set i.toNat (∑ x in Finset.Ico 0 j, largest_ev.getD x.toNat 0 * 2 ^ 2)))
    0 (SGVector.vlen largest_ev)
    (fun j (null_samples : Except String SGVector) =>
        null_samples.bind fun null_samples =>
        (SGVector.read null_samples i).bind fun cur =>
        (SGVector.read largest_ev j).bind fun ev =>
        SGVector.write null_samples i (cur + ev * (2 : ℚ) ^ 2))
    (.ok (w.set i.toNat 0)) (by unfold SGVector.vlen; omega) ?_ ?_
  · exact h
  · simp
  · rintro j t hj0 hj1 rfl
    have hr1 := SGVector.read_ok
      (w.set i.toNat (∑ x in Finset.Ico 0 j, largest_ev.getD x.toNat 0 * 2 ^ 2)) i hi0
      (by rw [SGVector.vlen_set]; exact hi1)
    have hr2 := SGVector.read_ok largest_ev j hj0 hj1
    have hw := fun x => SGVector.write_ok
      (w.set i.toNat (∑ x in Finset.Ico 0 j, largest_ev.getD x.toNat 0 * 2 ^ 2)) i x hi0
      (by rw [SGVector.vlen_set]; exact hi1)
    simp only [Except.ok_bind, hr1, hr2, hw]
    rw [List.set_set, getD_set_self _ _ _ hilen, sum_Ico_succ _ _ _ hj0]

/-- The sampling loop completes, and every entry of `null_samples` is twice the
sum of the entries of `largest_ev` times `2^2`. -/
theorem null_samples_spec (largest_ev : SGVector) (num_samples : Int) (h0 : 0 ≤ num_samples) :
    CQuadraticTimeMMD.sample_null_spectrum_null_samples largest_ev num_samples
      = .ok (List.replicate num_samples.toNat
          ((∑ j in Finset.Ico 0 (SGVector.vlen largest_ev),
            largest_ev.getD j.toNat 0 * 2 ^ 2) * 2)) := by
  unfold CQuadraticTimeMMD.sample_null_spectrum_null_samples
  have h := forLoop_invariant
    (fun i (acc : Except String SGVector) => ∃ w, acc = .ok w ∧
      SGVector.vlen w = num_samples ∧
      ∀ p : Nat, (p : Int) < i → w.getD p 0
        = (∑ j in Finset.Ico 0 (SGVector.vlen largest_ev),
            largest_ev.getD j.toNat 0 * 2 ^ 2) * 2)
    0 num_samples
    (fun i (null_samples : Except String SGVector) =>
      null_samples.bind fun null_samples =>
      (SGVector.write null_samples i 0).bind fun null_samples =>
      (forLoop 0 (SGVector.vlen largest_ev) (fun j (null_samples : Except String SGVector) =>
        null_samples.bind fun null_samples =>
        (SGVector.read null_samples i).bind fun cur =>
        (SGVector.read largest_ev j).bind fun ev =>
        SGVector.write null_samples i (cur + ev * (2 : ℚ) ^ 2))
        (.ok null_samples)).bind fun null_samples =>
      (SGVector.read null_samples i).bind fun cur =>
      SGVector.write null_samples i (cur * 2))
    (.ok (SGVector.alloc num_samples)) h0 ?_ ?_
  · obtain ⟨w, hw, hlen, hpt⟩ := h
    rw [hw]
    congr 1
    have hlen' : w.length = num_samples.toNat := by
      unfold SGVector.vlen at hlen
      omega
    rw [List.eq_replicate_iff]
    refine ⟨hlen', ?_⟩
    intro x hx
    obtain ⟨p, hp, rfl⟩ := List.mem_iff_getElem.mp hx
    rw [← List.getD_eq_getElem w 0 hp]
    exact hpt p (by omega)
  · exact ⟨_, rfl, SGVector.vlen_alloc _ h0, fun p hp => by omega⟩
  · rintro i t hi0 hi1 ⟨w, rfl, hlen, hpt⟩
    have hilen : i.toNat < w.length := by
      unfold SGVector.vlen at hlen
      omega
    have hw0 := SGVector.write_ok w i 0 hi0 (by omega)
    have hinner := null_samples_inner largest_ev w i hi0 (by omega)
    have hr := SGVector.read_ok
      (w.set i.toNat (∑ j in Finset.Ico 0 (SGVector.vlen largest_ev),
        largest_ev.getD j.toNat 0 * 2 ^ 2)) i hi0 (by rw [SGVector.vlen_set]; omega)
    have hw := fun x => SGVector.write_ok
      (w.set i.toNat (∑ j in Finset.Ico 0 (SGVector.vlen largest_ev),
        largest_ev.getD j.toNat 0 * 2 ^ 2)) i x hi0 (by rw [SGVector.vlen_set]; omega)
    simp only [Except.ok_bind, hw0, hinner, hr, hw]
    refine ⟨_, rfl, by rw [SGVector.vlen_set, SGVector.vlen_set, hlen], ?_⟩
    intro p hp
    rw [List.set_set]
    by_cases hpi : p = i.toNat
    · subst hpi
      rw [getD_set_self _ _ _ hilen, getD_set_self _ _ _ hilen]
    · rw [getD_set_ne _ _ _ _ _ (fun e => hpi e.symm)]
      exact hpt p (by omega)

/-- What a valid call of `sample_null_spectrum` returns. -/
theorem sample_null_spectrum_eq (self : CQuadraticTimeMMD) (eigenvalues : SGVector)
    (num_samples num_eigenvalues : Int)
    (hq : self.m_q_start = Int.tdiv self.m_num_vectors 2)
    (hlen : SGVector.vlen eigenvalues = self.m_num_vectors)
    (h1 : 2 < num_samples) (h2 : 1 ≤ num_eigenvalues)
    (h3 : num_eigenvalues ≤ 2 * self.m_q_start - 1) :
    CQuadraticTimeMMD.sample_null_spectrum self eigenvalues num_samples num_eigenvalues
      = .ok (List.replicate num_samples.toNat
          (8 * ∑ j in Finset.Ico 0 num_eigenvalues,
            scaledEigenvalue self.m_q_start eigenvalues j)) := by
  have hn : 0 ≤ self.m_num_vectors := by rw [← hlen]; simp [SGVector.vlen]
  have hdiv : 2 * self.m_q_start ≤ self.m_num_vectors := by
    rw [hq, Int.tdiv_eq_ediv hn (by decide)]; omega
  obtain ⟨v, hv, hvlen, hpt⟩ := largest_ev_spec self eigenvalues num_eigenvalues
    (by omega) (by omega)
  rw [sample_null_spectrum_unfold self eigenvalues num_samples num_eigenvalues hq h1 h2 h3, hv,
    Except.ok_bind, null_samples_spec v num_samples (by omega), hvlen]
  congr 2
  have hsum : ∑ j in Finset.Ico 0 num_eigenvalues, v.getD j.toNat 0 * 2 ^ 2
      = ∑ j in Finset.Ico 0 num_eigenvalues,
          scaledEigenvalue self.m_q_start eigenvalues j * 2 ^ 2 := by
    apply Finset.sum_congr rfl
    intro j hj
    rw [Finset.mem_Ico] at hj
    rw [hpt j hj.1 hj.2]
  rw [hsum, ← Finset.sum_mul]
  ring

/-- C16: a valid call of `sample_null_spectrum` returns `num_samples` copies of
one number, 8 times the sum of the selected scaled eigenvalues (2 times the sum
of `largest_ev[j] * 2^2`): the samples are all equal and a function of the
eigenvalues alone. -/
theorem C16_null_samples_are_constant (self : CQuadraticTimeMMD) (eigenvalues : SGVector)
    (num_samples num_eigenvalues : Int)
    (hq : self.m_q_start = Int.tdiv self.m_num_vectors 2)
    (hlen : SGVector.vlen eigenvalues = self.m_num_vectors)
    (h1 : 2 < num_samples) (h2 : 1 ≤ num_eigenvalues)
    (h3 : num_eigenvalues ≤ 2 * self.m_q_start - 1) :
    CQuadraticTimeMMD.sample_null_spectrum self eigenvalues num_samples num_eigenvalues
        = .ok (List.replicate num_samples.toNat
            (8 * ∑ j in Finset.Ico 0 num_eigenvalues,
              scaledEigenvalue self.m_q_start eigenvalues j)) ∧
    8 * ∑ j in Finset.Ico 0 num_eigenvalues, scaledEigenvalue self.m_q_start eigenvalues j
      = 2 * ∑ j in Finset.Ico 0 num_eigenvalues,
          scaledEigenvalue self.m_q_start eigenvalues j * 2 ^ 2 := by
  refine ⟨sample_null_spectrum_eq self eigenvalues num_samples num_eigenvalues hq hlen h1 h2 h3,
    ?_⟩
  rw [← Finset.sum_mul]
  ring

/-- C16, at an input: four vectors, m_q_start = 2, three samples from the three
largest of the eigenvalues 0, 1, 1, 1. -/
theorem C16_null_samples_are_constant_witness :
    CQuadraticTimeMMD.sample_null_spectrum ⟨deltaKernel, 4, 2, 0, 0⟩ [0, 1, 1, 1] 3 3
      = .ok (List.replicate (3 : Int).toNat
          (8 * ∑ j in Finset.Ico 0 3, scaledEigenvalue 2 [0, 1, 1, 1] j)) :=
  (C16_null_samples_are_constant ⟨deltaKernel, 4, 2, 0, 0⟩ [0, 1, 1, 1] 3 3
    (by decide) (by decide) (by decide) (by decide) (by decide)).1

/-- The vector the selection loop builds: the scaled magnitudes of the last
`num_eigenvalues` entries of the eigenvalue vector, the last entry first. -/
theorem largest_ev_eq (self : CQuadraticTimeMMD) (eigenvalues : SGVector)
    (num_eigenvalues : Int) (h0 : 0 ≤ num_eigenvalues)
    (hle : num_eigenvalues ≤ SGVector.vlen eigenvalues) :
    CQuadraticTimeMMD.sample_null_spectrum_largest_ev self eigenvalues num_eigenvalues
      = .ok (((eigenvalues.map fun x => |1 / 2 / (self.m_q_start : ℚ) * x|).reverse).take
          num_eigenvalues.toNat) := by
  obtain ⟨v, hv, hvlen, hpt⟩ := largest_ev_spec self eigenvalues num_eigenvalues h0 hle
  rw [hv]
  congr 1
  unfold SGVector.vlen at hvlen hle
  have hlenv : v.length = num_eigenvalues.toNat := by omega
  apply List.ext_getElem?
  intro p
  by_cases hp : p < num_eigenvalues.toNat
  · have hp' : p < eigenvalues.length := by omega
    have hidx : eigenvalues.length - 1 - p < eigenvalues.length := by omega
    rw [List.getElem?_take, if_pos hp, List.getElem?_reverse (by simpa using hp'),
      List.getElem?_map, List.length_map, List.getElem?_eq_getElem hidx,
      List.getElem?_eq_getElem (by omega : p < v.length),
      ← List.getD_eq_getElem v 0 (by omega : p < v.length)]
    have h := hpt (p : Int) (by omega) (by omega)
    rw [Int.toNat_ofNat] at h
    rw [h]
    unfold scaledEigenvalue SGVector.vlen
    have e : ((eigenvalues.length : Int) - 1 - (p : Int)).toNat = eigenvalues.length - 1 - p := by
      omega
    rw [e, List.getD_eq_getElem eigenvalues 0 hidx]
    rfl
  · rw [List.getElem?_take, if_neg hp, List.getElem?_eq_none (by omega)]

/-- C17, as stated, fails: for the kernel `offDiagonalKernel` on four points
(m = 2) the ascending eigenvalue vector is −1, −1, −1, 0; with
`num_eigenvalues = 1` the code selects the scaled magnitude 0 of the last entry,
while the largest scaled magnitude is 1/4. -/
theorem C17_selection_misses_negative_eigenvalues :
    List.Sorted (· ≤ ·) [(-1 : ℚ), -1, -1, 0] ∧
    CQuadraticTimeMMD.sample_null_spectrum_largest_ev ⟨offDiagonalKernel, 4, 2, 0, 0⟩
        [-1, -1, -1, 0] 1 = .ok [0] ∧
    largestByMagnitude 2 [-1, -1, -1, 0] 1 = [1 / 4] ∧
    ¬ List.Perm [(0 : ℚ)] [1 / 4] := by
  refine ⟨by simp [List.Sorted], ?_, ?_, ?_⟩
  · rw [largest_ev_eq _ _ _ (by decide) (by decide)]
    simp
  · norm_num [largestByMagnitude, List.insertionSort, List.orderedInsert, abs_of_pos]
  · simp

/-- C17, amended: with `m_q_start == n/2`, the eigenvalue vector of the n×n
matrix in ascending order and a valid `num_eigenvalues`, the values selected are
the scaled magnitudes of the last `num_eigenvalues` entries of the vector, that
is of the `num_eigenvalues` largest eigenvalues by value, whatever their signs;
when the vector has no negative entry, they are the `num_eigenvalues` largest
elements of the multiset of the scaled magnitudes of all eigenvalues. -/
theorem C17_selection_of_largest (self : CQuadraticTimeMMD) (eigenvalues : SGVector)
    (num_eigenvalues : Int)
    (hq : self.m_q_start = Int.tdiv self.m_num_vectors 2)
    (hlen : SGVector.vlen eigenvalues = self.m_num_vectors)
    (h2 : 1 ≤ num_eigenvalues) (h3 : num_eigenvalues ≤ 2 * self.m_q_start - 1)
    (hsorted : List.Sorted (· ≤ ·) eigenvalues) :
    ∃ v, CQuadraticTimeMMD.sample_null_spectrum_largest_ev self eigenvalues num_eigenvalues
        = .ok v ∧
      v = ((eigenvalues.map fun x => |1 / 2 / (self.m_q_start : ℚ) * x|).reverse).take
            num_eigenvalues.toNat ∧
      v = (largestEigenvalues eigenvalues num_eigenvalues.toNat).map
            (fun x => |x / (2 * (self.m_q_start : ℚ))|) ∧
      ((∀ x ∈ eigenvalues, 0 ≤ x) →
        List.Perm v (largestByMagnitude self.m_q_start eigenvalues num_eigenvalues.toNat)) := by
  have hn : 0 ≤ self.m_num_vectors := by rw [← hlen]; simp [SGVector.vlen]
  have hdiv : 2 * self.m_q_start ≤ self.m_num_vectors := by
    rw [hq, Int.tdiv_eq_ediv hn (by decide)]; omega
  have hm : (0 : ℚ) < (self.m_q_start : ℚ) := by
    exact_mod_cast (by omega : (0 : Int) < self.m_q_start)
  have hfun : (fun x : ℚ => |1 / 2 / (self.m_q_start : ℚ) * x|)
      = (fun x : ℚ => |x / (2 * (self.m_q_start : ℚ))|) := by
    funext x
    congr 1
    field_simp
  have hrev : List.Sorted (· ≥ ·) eigenvalues.reverse := by
    unfold List.Sorted
    rw [List.pairwise_reverse]
    exact hsorted
  have hsortev : eigenvalues.insertionSort (· ≥ ·) = eigenvalues.reverse :=
    List.eq_of_perm_of_sorted
      ((List.perm_insertionSort _ _).trans (List.reverse_perm _).symm)
      (List.sorted_insertionSort _ _) hrev
  refine ⟨_, largest_ev_eq self eigenvalues num_eigenvalues (by omega) (by omega), rfl, ?_, ?_⟩
  · unfold largestEigenvalues
    rw [hsortev, hfun, List.map_take, List.map_reverse]
  · intro hpos
    have hasc : List.Sorted (· ≤ ·)
        (eigenvalues.map fun x : ℚ => |x / (2 * (self.m_q_start : ℚ))|) := by
      unfold List.Sorted
      rw [List.pairwise_map]
      refine List.Pairwise.imp_of_mem ?_ hsorted
      intro a b ha hb hab
      rw [abs_of_nonneg (div_nonneg (hpos a ha) (by positivity)),
        abs_of_nonneg (div_nonneg (hpos b hb) (by positivity))]
      exact div_le_div_of_nonneg_right hab (by positivity)
    have hdesc : List.Sorted (· ≥ ·)
        (eigenvalues.map fun x : ℚ => |x / (2 * (self.m_q_start : ℚ))|).reverse := by
      unfold List.Sorted
      rw [List.pairwise_reverse]
      exact hasc
    have hsort : (eigenvalues.map fun x : ℚ => |x / (2 * (self.m_q_start : ℚ))|).insertionSort
        (· ≥ ·) = (eigenvalues.map fun x : ℚ => |x / (2 * (self.m_q_start : ℚ))|).reverse :=
      List.eq_of_perm_of_sorted
        ((List.perm_insertionSort _ _).trans (List.reverse_perm _).symm)
        (List.sorted_insertionSort _ _) hdesc
    unfold largestByMagnitude
    rw [hsort, hfun]

/-- C17, at an input: the kernel `offDiagonalKernel` on four points (m = 2) with
its eigenvalues −1, −1, −1, 0 and `num_eigenvalues = 2`: the code selects the
magnitudes 0 and 1/4 of the two largest eigenvalues 0 and −1. -/
theorem C17_selection_of_largest_witness :
    CQuadraticTimeMMD.sample_null_spectrum_largest_ev ⟨offDiagonalKernel, 4, 2, 0, 0⟩
        [-1, -1, -1, 0] 2 = .ok [0, 1 / 4] ∧
    ∃ v, CQuadraticTimeMMD.sample_null_spectrum_largest_ev ⟨offDiagonalKernel, 4, 2, 0, 0⟩
        [-1, -1, -1, 0] 2 = .ok v ∧
      v = ((([-1, -1, -1, 0] : List ℚ).map fun x => |1 / 2 / ((2 : Int) : ℚ) * x|).reverse).take
            (2 : Int).toNat ∧
      v = (largestEigenvalues [-1, -1, -1, 0] (2 : Int).toNat).map
            (fun x => |x / (2 * ((2 : Int) : ℚ))|) ∧
      ((∀ x ∈ ([-1, -1, -1, 0] : List ℚ), 0 ≤ x) →
        List.Perm v (largestByMagnitude 2 [-1, -1, -1, 0] (2 : Int).toNat)) := by
  refine ⟨?_, C17_selection_of_largest ⟨offDiagonalKernel, 4, 2, 0, 0⟩ [-1, -1, -1, 0] 2
    (by decide) (by decide) (by decide) (by decide) (by norm_num [List.Sorted])⟩
  rw [largest_ev_eq _ _ _ (by decide) (by decide)]
  norm_num [abs_of_pos, show (2 : Int).toNat = 2 from rfl]

/-! ## Frame of the Gamma path and safety of the indices and divisors -/

/-- The positions `onBlockDiagonals m m` are the positions `(i,i)`, `(m+i,m+i)`,
`(i,m+i)` and `(m+i,i)` with `0 ≤ i < m`. -/
theorem onBlockDiagonals_iff (m a b : Int) :
    onBlockDiagonals m m a b ↔
      ∃ i, 0 ≤ i ∧ i < m ∧
        ((a = i ∧ b = i) ∨ (a = m + i ∧ b = m + i) ∨ (a = i ∧ b = m + i) ∨
          (a = m + i ∧ b = i)) := by
  unfold onBlockDiagonals
  constructor
  · rintro (⟨h1, h2, h3⟩ | ⟨h1, h2, h3⟩)
    · exact ⟨a, h1, h2, by omega⟩
    · exact ⟨a - m, by omega, by omega, by omega⟩
  · rintro ⟨i, h1, h2, h3⟩
    omega

/-- C18: after the mean loop of `compute_p_value_gamma` the working matrix is 0
at the positions (i,i), (m+i,m+i), (i,m+i) and (m+i,i) for 0 ≤ i < m and equals
the original matrix at every other position. -/
theorem C18_mean_loop_zeroes_block_diagonals_only (K : SGMatrix) (m : Int) (hm : 0 ≤ m) :
    (∀ i, 0 ≤ i → i < m →
      (CQuadraticTimeMMD.compute_p_value_gamma_mean_loop m K).2 i i = 0 ∧
      (CQuadraticTimeMMD.compute_p_value_gamma_mean_loop m K).2 (m + i) (m + i) = 0 ∧
      (CQuadraticTimeMMD.compute_p_value_gamma_mean_loop m K).2 i (m + i) = 0 ∧
      (CQuadraticTimeMMD.compute_p_value_gamma_mean_loop m K).2 (m + i) i = 0) ∧
    (∀ a b,
      (¬ ∃ i, 0 ≤ i ∧ i < m ∧
        ((a = i ∧ b = i) ∨ (a = m + i ∧ b = m + i) ∨ (a = i ∧ b = m + i) ∨
          (a = m + i ∧ b = i))) →
      (CQuadraticTimeMMD.compute_p_value_gamma_mean_loop m K).2 a b = K a b) := by
  rw [mean_loop_eq K m hm]
  simp only [zeroBlockDiagonals]
  constructor
  · intro i hi0 hi1
    have c1 : onBlockDiagonals m m i i := by unfold onBlockDiagonals; omega
    have c2 : onBlockDiagonals m m (m + i) (m + i) := by unfold onBlockDiagonals; omega
    have c3 : onBlockDiagonals m m i (m + i) := by unfold onBlockDiagonals; omega
    have c4 : onBlockDiagonals m m (m + i) i := by unfold onBlockDiagonals; omega
    exact ⟨if_pos c1, if_pos c2, if_pos c3, if_pos c4⟩
  · intro a b h
    rw [← onBlockDiagonals_iff] at h
    exact if_neg h

/-- C18, at an input: the 4×4 matrix K(i,j) = i + j + i·j with m = 2; the entry
(0,1) keeps its value 1 and the entry (1,3) is 0. -/
theorem C18_mean_loop_zeroes_block_diagonals_only_witness :
    (CQuadraticTimeMMD.compute_p_value_gamma_mean_loop 2
        (fun i j => ((i + j + i * j : Int) : ℚ))).2 0 1 = (fun i j => ((i + j + i * j : Int) : ℚ)) 0 1 ∧
    (CQuadraticTimeMMD.compute_p_value_gamma_mean_loop 2
        (fun i j => ((i + j + i * j : Int) : ℚ))).2 1 (2 + 1) = 0 :=
  ⟨(C18_mean_loop_zeroes_block_diagonals_only (fun i j => ((i + j + i * j : Int) : ℚ)) 2
      (by decide)).2 0 1 (by rintro ⟨i, h0, h1, h⟩; omega),
   ((C18_mean_loop_zeroes_block_diagonals_only (fun i j => ((i + j + i * j : Int) : ℚ)) 2
      (by decide)).1 1 (by decide) (by decide)).2.2.1⟩

/-- The divisors of `compute_statistic_divisors` are the ones the three terms of
`compute_statistic` are normalised with. -/
theorem compute_statistic_uses_divisors (self : CQuadraticTimeMMD) :
    CQuadraticTimeMMD.compute_statistic_first self
      = forLoop 0 self.m_q_start (fun i first =>
          forLoop 0 self.m_q_start (fun j first =>
            if i = j then first else first + self.m_kernel i j) first) 0
        / ((CQuadraticTimeMMD.compute_statistic_divisors self).1 : ℚ) ∧
    CQuadraticTimeMMD.compute_statistic_second self
      = forLoop self.m_q_start self.m_num_vectors (fun i second =>
          forLoop self.m_q_start self.m_num_vectors (fun j second =>
            if i = j then second else second + self.m_kernel i j) second) 0
        / ((CQuadraticTimeMMD.compute_statistic_divisors self).2.1 : ℚ) ∧
    CQuadraticTimeMMD.compute_statistic_third self
      = forLoop 0 self.m_q_start (fun i third =>
          forLoop self.m_q_start self.m_num_vectors (fun j third =>
            third + self.m_kernel i j) third) 0
        * (-2 / ((CQuadraticTimeMMD.compute_statistic_divisors self).2.2 : ℚ)) :=
  ⟨rfl, rfl, rfl⟩

theorem create_ok (kernel : Int → Int → ℚ) (num_vectors q_start : Int)
    (self : CQuadraticTimeMMD)
    (h : CQuadraticTimeMMD.create kernel num_vectors q_start = .ok self) :
    q_start = Int.tdiv num_vectors 2 ∧ self = ⟨kernel, num_vectors, q_start, 0, 0⟩ := by
  unfold CQuadraticTimeMMD.create at h
  simp only [CQuadraticTimeMMD.init] at h
  by_cases hq : q_start = Int.tdiv num_vectors 2
  · rw [if_neg (by simpa using hq)] at h
    cases h
    exact ⟨hq, rfl⟩
  · rw [if_pos hq] at h
    cases h

theorem wrap32_eq_zero_iff (x : Int) : wrap32 x = 0 ↔ (4294967296 : Int) ∣ x := by
  unfold wrap32
  constructor
  · intro h
    exact Int.dvd_of_emod_eq_zero (by omega)
  · intro h
    have := Int.emod_eq_zero_of_dvd h
    omega

theorem dvd_of_dvd_mul_odd (a b : Int) (hb : b % 2 = 1)
    (h : (4294967296 : Int) ∣ a * b) : (4294967296 : Int) ∣ a := by
  have hc : IsCoprime (2 : Int) b := ⟨-(b / 2), 1, by omega⟩
  have hc' : IsCoprime ((2 : Int) ^ 32) b := hc.pow_left
  have h' : (2 : Int) ^ 32 ∣ a * b := by norm_num; exact h
  have := hc'.dvd_of_dvd_mul_right h'
  norm_num at this
  exact this

/-- The product of two consecutive 32 bit integers from 2 on is not a multiple of
2^32: it does not wrap to 0. -/
theorem not_dvd_consecutive (m : Int) (h0 : 2 ≤ m) (h1 : m < 2147483648) :
    ¬ (4294967296 : Int) ∣ m * (m - 1) := by
  intro h
  rcases Int.emod_two_eq_zero_or_one m with hm | hm
  · have h2 := dvd_of_dvd_mul_odd m (m - 1) (by omega) h
    have := Int.le_of_dvd (by omega) h2
    omega
  · have h2 := dvd_of_dvd_mul_odd (m - 1) m hm (by rw [mul_comm]; exact h)
    have := Int.le_of_dvd (by omega) h2
    omega

theorem pow16_dvd_of_sq (a : Nat) (h : 2 ^ 31 ∣ a ^ 2) : 2 ^ 16 ∣ a := by
  by_cases ha : a = 0
  · subst ha; exact dvd_zero _
  · have ha2 : a ^ 2 ≠ 0 := pow_ne_zero 2 ha
    rw [Nat.prime_two.pow_dvd_iff_le_factorization ha2, Nat.factorization_pow] at h
    rw [Nat.prime_two.pow_dvd_iff_le_factorization ha]
    simp at h
    omega

/-- The product `m·(2m)` is a multiple of 2^32 exactly when `m` is a multiple of
2^16. -/
theorem dvd_mul_double_iff (m : Int) (h0 : 0 ≤ m) :
    (4294967296 : Int) ∣ m * (2 * m) ↔ (65536 : Int) ∣ m := by
  constructor
  · intro h
    obtain ⟨a, rfl⟩ := Int.eq_ofNat_of_zero_le h0
    have h1 : ((2 ^ 32 : Nat) : Int) ∣ ((a * (2 * a) : Nat) : Int) := by
      push_cast; exact h
    rw [Int.natCast_dvd_natCast] at h1
    have h2 : 2 ^ 31 ∣ a ^ 2 := by
      have e : a * (2 * a) = 2 * a ^ 2 := by ring
      rw [e, show (2:Nat) ^ 32 = 2 * 2 ^ 31 by norm_num] at h1
      exact (Nat.mul_dvd_mul_iff_left (by norm_num)).mp h1
    have h3 := pow16_dvd_of_sq a h2
    have h4 : ((2 ^ 16 : Nat) : Int) ∣ (a : Int) := Int.natCast_dvd_natCast.mpr h3
    norm_num at h4
    exact h4
  · rintro ⟨q, rfl⟩
    exact ⟨2 * q * q, by ring⟩

/-- C19, as stated, fails: the constructor accepts two vectors with partition
point 1 (one vector in each sample), and the divisor m·(m−1) of the first term
is then 0. -/
theorem C19_divisor_zero_for_two_vectors :
    CQuadraticTimeMMD.create deltaKernel 2 1 = .ok ⟨deltaKernel, 2, 1, 0, 0⟩ ∧
    (CQuadraticTimeMMD.compute_statistic_divisors ⟨deltaKernel, 2, 1, 0, 0⟩).1 = 0 := by
  refine ⟨?_, by decide⟩
  simp [CQuadraticTimeMMD.create, CQuadraticTimeMMD.init, show Int.tdiv 2 1 = 2 from rfl,
    show Int.tdiv 2 2 = 1 from rfl]

/-- The constructor accepts 131072 vectors with partition point 65536, and the
divisor m·n of the third term, 2^33 in exact arithmetic, is 0 in 32 bit. -/
theorem divisor_wraps_to_zero :
    CQuadraticTimeMMD.create deltaKernel 131072 65536 = .ok ⟨deltaKernel, 131072, 65536, 0, 0⟩ ∧
    (CQuadraticTimeMMD.compute_statistic_divisors ⟨deltaKernel, 131072, 65536, 0, 0⟩).2.2 = 0 := by
  refine ⟨?_, by decide⟩
  simp [CQuadraticTimeMMD.create, CQuadraticTimeMMD.init,
    show Int.tdiv 131072 2 = 65536 from rfl]

/-- C19, amended: for an object the constructor accepted, with 0 ≤ n < 2^31
vectors, the divisors m·(m−1), n·(n−1) and m·n of `compute_statistic`, formed in
32 bit arithmetic, are all non-zero exactly when n ≥ 4 and n is not a multiple
of 2^17 = 131072. -/
theorem C19_divisors_nonzero_iff (kernel : Int → Int → ℚ) (num_vectors q_start : Int)
    (self : CQuadraticTimeMMD) (hn : 0 ≤ num_vectors) (h32 : num_vectors < 2147483648)
    (h : CQuadraticTimeMMD.create kernel num_vectors q_start = .ok self) :
    ((CQuadraticTimeMMD.compute_statistic_divisors self).1 ≠ 0 ∧
      (CQuadraticTimeMMD.compute_statistic_divisors self).2.1 ≠ 0 ∧
      (CQuadraticTimeMMD.compute_statistic_divisors self).2.2 ≠ 0) ↔
      (4 ≤ num_vectors ∧ ¬ (131072 : Int) ∣ num_vectors) := by
  obtain ⟨hq, rfl⟩ := create_ok kernel num_vectors q_start self h
  rw [Int.tdiv_eq_ediv hn (by decide)] at hq
  have hw1 : wrap32 (q_start - 1) = q_start - 1 := wrap32_of_fits _ (by omega) (by omega)
  have hw2 : wrap32 (num_vectors - 1) = num_vectors - 1 :=
    wrap32_of_fits _ (by omega) (by omega)
  simp only [CQuadraticTimeMMD.compute_statistic_divisors, hw1, hw2, ne_eq,
    wrap32_eq_zero_iff]
  constructor
  · rintro ⟨h1, -, h3⟩
    constructor
    · by_contra hlt
      have hm : q_start = 0 ∨ q_start = 1 := by omega
      rcases hm with hm | hm <;> exact h1 (by rw [hm]; decide)
    · rintro ⟨k, hk⟩
      apply h3
      have e : num_vectors = 2 * q_start := by omega
      rw [e]
      exact (dvd_mul_double_iff q_start (by omega)).mpr ⟨k, by omega⟩
  · rintro ⟨h4, hnd⟩
    refine ⟨not_dvd_consecutive q_start (by omega) (by omega),
      not_dvd_consecutive num_vectors (by omega) h32, ?_⟩
    intro hd
    rcases Int.emod_two_eq_zero_or_one num_vectors with hpar | hpar
    · have e : num_vectors = 2 * q_start := by omega
      rw [e] at hd
      obtain ⟨k, hk⟩ := (dvd_mul_double_iff q_start (by omega)).mp hd
      exact hnd ⟨k, by omega⟩
    · have h2 := dvd_of_dvd_mul_odd q_start num_vectors hpar hd
      have := Int.le_of_dvd (by omega) h2
      omega

/-- C19, at an input: four vectors with partition point 2. -/
theorem C19_divisors_nonzero_iff_witness :
    (CQuadraticTimeMMD.compute_statistic_divisors ⟨deltaKernel, 4, 2, 0, 0⟩).1 ≠ 0 ∧
    (CQuadraticTimeMMD.compute_statistic_divisors ⟨deltaKernel, 4, 2, 0, 0⟩).2.1 ≠ 0 ∧
    (CQuadraticTimeMMD.compute_statistic_divisors ⟨deltaKernel, 4, 2, 0, 0⟩).2.2 ≠ 0 :=
  (C19_divisors_nonzero_iff deltaKernel 4 2 ⟨deltaKernel, 4, 2, 0, 0⟩ (by decide) (by decide)
    (by simp [CQuadraticTimeMMD.create, CQuadraticTimeMMD.init,
      show Int.tdiv 4 2 = 2 from rfl])).mpr ⟨by decide, by decide⟩

/-- C20: with the eigenvalue vector of the n×n matrix, `sample_null_spectrum`
never ends in the out-of-bounds error; and when its checks pass, every index
`vlen-1-i` with `0 ≤ i < num_eigenvalues` lies in `[0, vlen)`, the read there
succeeds, and the call returns a vector, so every write was inside its vector. -/
theorem C20_no_index_out_of_bounds (self : CQuadraticTimeMMD) (eigenvalues : SGVector)
    (num_samples num_eigenvalues : Int)
    (hlen : SGVector.vlen eigenvalues = self.m_num_vectors) :
    CQuadraticTimeMMD.sample_null_spectrum self eigenvalues num_samples num_eigenvalues
      ≠ .error "index out of bounds" ∧
    (self.m_q_start = Int.tdiv self.m_num_vectors 2 → 2 < num_samples →
      1 ≤ num_eigenvalues → num_eigenvalues ≤ 2 * self.m_q_start - 1 →
      (∀ i, 0 ≤ i → i < num_eigenvalues →
        0 ≤ SGVector.vlen eigenvalues - 1 - i ∧
        SGVector.vlen eigenvalues - 1 - i < SGVector.vlen eigenvalues ∧
        ∃ x, SGVector.read eigenvalues (SGVector.vlen eigenvalues - 1 - i) = .ok x) ∧
      ∃ v, CQuadraticTimeMMD.sample_null_spectrum self eigenvalues num_samples
        num_eigenvalues = .ok v) := by
  have hn : 0 ≤ self.m_num_vectors := by rw [← hlen]; simp [SGVector.vlen]
  have good : self.m_q_start = Int.tdiv self.m_num_vectors 2 → 2 < num_samples →
      1 ≤ num_eigenvalues → num_eigenvalues ≤ 2 * self.m_q_start - 1 →
      (∀ i, 0 ≤ i → i < num_eigenvalues →
        0 ≤ SGVector.vlen eigenvalues - 1 - i ∧
        SGVector.vlen eigenvalues - 1 - i < SGVector.vlen eigenvalues ∧
        ∃ x, SGVector.read eigenvalues (SGVector.vlen eigenvalues - 1 - i) = .ok x) ∧
      ∃ v, CQuadraticTimeMMD.sample_null_spectrum self eigenvalues num_samples
        num_eigenvalues = .ok v := by
    intro hq h1 h2 h3
    have hdiv : 2 * self.m_q_start ≤ self.m_num_vectors := by
      rw [hq, Int.tdiv_eq_ediv hn (by decide)]; omega
    refine ⟨?_, _, sample_null_spectrum_eq self eigenvalues num_samples num_eigenvalues
      hq hlen h1 h2 h3⟩
    intro i hi0 hi1
    exact ⟨by omega, by omega, _, SGVector.read_ok _ _ (by omega) (by omega)⟩
  refine ⟨?_, good⟩
  by_cases hq : self.m_q_start = Int.tdiv self.m_num_vectors 2
  · by_cases h1 : num_samples ≤ 2
    · unfold CQuadraticTimeMMD.sample_null_spectrum
      rw [if_neg (by simpa using hq), if_pos h1]
      intro e
      exact absurd (Except.error.inj e) (by decide)
    · by_cases h3 : num_eigenvalues > 2 * self.m_q_start - 1
      · unfold CQuadraticTimeMMD.sample_null_spectrum
        rw [if_neg (by simpa using hq), if_neg h1, if_pos h3]
        intro e
        exact absurd (Except.error.inj e) (by decide)
      · by_cases h2 : num_eigenvalues < 1
        · unfold CQuadraticTimeMMD.sample_null_spectrum
          rw [if_neg (by simpa using hq), if_neg h1, if_neg h3, if_pos h2]
          intro e
          exact absurd (Except.error.inj e) (by decide)
        · obtain ⟨-, v, hv⟩ := good hq (by omega) (by omega) (by omega)
          rw [hv]
          intro e
          cases e
  · unfold CQuadraticTimeMMD.sample_null_spectrum
    rw [if_pos hq]
    intro e
    exact absurd (Except.error.inj e) (by decide)

/-- C20, at an input: four vectors, m_q_start = 2, the eigenvalues 0, 1, 1, 1,
three samples from three eigenvalues. -/
theorem C20_no_index_out_of_bounds_witness :
    CQuadraticTimeMMD.sample_null_spectrum ⟨deltaKernel, 4, 2, 0, 0⟩ [0, 1, 1, 1] 3 3
      ≠ .error "index out of bounds" ∧
    ∃ v, CQuadraticTimeMMD.sample_null_spectrum ⟨deltaKernel, 4, 2, 0, 0⟩ [0, 1, 1, 1] 3 3
      = .ok v :=
  ⟨(C20_no_index_out_of_bounds ⟨deltaKernel, 4, 2, 0, 0⟩ [0, 1, 1, 1] 3 3 (by decide)).1,
   ((C20_no_index_out_of_bounds ⟨deltaKernel, 4, 2, 0, 0⟩ [0, 1, 1, 1] 3 3 (by decide)).2
      (by decide) (by decide) (by decide) (by decide)).2⟩

end Shogun
